import Mathlib

/-!
The Lua plugin bridge of `sdk/plugin.go`

A shallow embedding of `LuaPlugin` (package `sdk`) together with the part of the
gopher-lua value model the bridge touches: `LValue`, `LTable` with its array part
and its two hash parts, `RawGetString`, `RawSetString`, `Len`, `ForEach`,
`String`, `ToTable` and the protected call `CallByParam`.

Conventions of the embedding:

* a Go pointer that may be nil is an `Option`; a Go slice is a `Slice`, whose nil
  value is `none`; a Go `error` is an `Option String` holding the message;
* a Go function that may panic returns a `GoResult`, whose `panics` case is a
  runtime panic (nil pointer dereference or failed type assertion) and whose
  `returns` case carries the pair the function returns;
* a closure that assigns to captured variables is a state transformer on the
  tuple of those variables, and `ForEach` folds it over the visited pairs;
* Go iterates a map in an unspecified order: the hash parts of a table are
  association lists, and the order of the list stands for the order the runtime picks.
-/

namespace Sdk

/-! ## gopher-lua values -/

mutual
/-- Guest value `lua.LValue`. A number carries the text `LNumber.String()`
prints for it; a reference value carries its address as `%p` prints it. -/
inductive LValue : Type
  | LNil
  | LBool (b : Bool)
  | LNumber (text : String)
  | LString (s : String)
  | LFunction (ptr : String)
  | LUserData (ptr : String)
  | LThread (ptr : String)
  | LChannel (ptr : String)
  | LTableV (tb : LTable)
/-- Guest table `lua.LTable`: address, array part, string-keyed hash part and
hash part for the other keys. -/
inductive LTable : Type
  | mk (ptr : String) (array : List LValue) (strdict : List (String × LValue))
      (dict : List (LValue × LValue))
end

/-- Type tags `lua.LValueType`. -/
inductive LValueType
  | LTNil | LTBool | LTNumber | LTString | LTFunction | LTUserData | LTThread | LTTable
  | LTChannel
  deriving DecidableEq, Repr

/-- Address of a table. -/
def LTable.ptr : LTable → String
  | .mk p _ _ _ => p

/-- Array part of a table. -/
def LTable.array : LTable → List LValue
  | .mk _ a _ _ => a

/-- String-keyed hash part of a table. -/
def LTable.strdict : LTable → List (String × LValue)
  | .mk _ _ s _ => s

/-- Hash part of a table for keys that are neither array indices nor strings. -/
def LTable.dict : LTable → List (LValue × LValue)
  | .mk _ _ _ d => d

/-- Test `v == lua.LNil`. -/
def LValue.isNil : LValue → Bool
  | .LNil => true
  | _ => false

/-- Method `String()` of each `LValue` implementation. -/
def LValue.toGoString : LValue → String
  | .LNil => "nil"
  | .LBool b => if b then "true" else "false"
  | .LNumber text => text
  | .LString s => s
  | .LFunction p => "function: " ++ p
  | .LUserData p => "userdata: " ++ p
  | .LThread p => "thread: " ++ p
  | .LChannel p => "channel: " ++ p
  | .LTableV tb => "table: " ++ tb.ptr

/-- Method `Type()` of each `LValue` implementation. -/
def LValue.Type : LValue → LValueType
  | .LNil => .LTNil
  | .LBool _ => .LTBool
  | .LNumber _ => .LTNumber
  | .LString _ => .LTString
  | .LFunction _ => .LTFunction
  | .LUserData _ => .LTUserData
  | .LThread _ => .LTThread
  | .LChannel _ => .LTChannel
  | .LTableV _ => .LTTable

/-- Method `(tb *LTable) Type()`: the body is `return LTTable` and never reads
the receiver, so it answers `LTTable` for the nil pointer as well. -/
def LTable.TypeOfPtr (_tb : Option LTable) : LValueType := .LTTable

/-- Conversion `L.ToTable(-1)` applied to the value on top of the stack: the table
when the value is one, the nil pointer otherwise. -/
def ToTable (v : LValue) : Option LTable :=
  match v with
  | .LTableV tb => some tb
  | _ => none

/-- Lookup `tb.RawGetString(key)`: the value stored under the string key, `LNil` when
there is none. -/
def LTable.RawGetString (tb : LTable) (key : String) : LValue :=
  match tb.strdict.lookup key with
  | some v => v
  | none => .LNil

/-- Association-list update used by `RawSetString`: overwrite in place, or add. -/
def strdictSet (key : String) (value : LValue) :
    List (String × LValue) → List (String × LValue)
  | [] => [(key, value)]
  | (k, v) :: rest =>
    if k = key then (key, value) :: rest else (k, v) :: strdictSet key value rest

/-- Store `tb.RawSetString(key, value)`, which is what `L.SetField` does on a table
without a metatable: storing `LNil` deletes the key. -/
def LTable.RawSetString (tb : LTable) (key : String) (value : LValue) : LTable :=
  if value.isNil then
    .mk tb.ptr tb.array (tb.strdict.filter (fun kv => kv.1 != key)) tb.dict
  else
    .mk tb.ptr tb.array (strdictSet key value tb.strdict) tb.dict

/-- Loop of `Len`: `xs` holds `array[i], array[i-1], ..., array[0]` and `prev` is the
loop variable of that name; the answer at a hit is `i + 1`. -/
def lenLoop (prev : LValue) : List LValue → Nat
  | [] => 0
  | lv :: rest => if prev.isNil && !lv.isNil then rest.length + 1 else lenLoop lv rest

/-- Method `tb.Len()`: the sequence length, found by scanning the array part from
its last index down. -/
def LTable.Len (tb : LTable) : Nat := lenLoop .LNil tb.array.reverse

/-- Pairs `(key, value)` that `ForEach` hands to its callback, in order: the array part
with keys `1, 2, ...`, then the string-keyed part, then the rest, skipping `LNil`
values everywhere. -/
def LTable.pairs (tb : LTable) : List (LValue × LValue) :=
  (tb.array.enum.filter (fun iv => !iv.2.isNil)).map
      (fun iv => (LValue.LNumber (toString (iv.1 + 1)), iv.2))
    ++ (tb.strdict.filter (fun kv => !kv.2.isNil)).map (fun kv => (LValue.LString kv.1, kv.2))
    ++ tb.dict.filter (fun kv => !kv.2.isNil)

/-- Method `tb.ForEach(cb)`, with the callback as a transformer of the variables it
captures. -/
def LTable.ForEach {σ : Type} (tb : LTable) (cb : LValue → LValue → σ → σ) (s : σ) : σ :=
  tb.pairs.foldl (fun acc kv => cb kv.1 kv.2 acc) s

/-! ## Go results -/

/-- Outcome of a Go function returning `(value, error)`: a runtime panic, or the
returned pair. -/
inductive GoResult (α : Type) : Type
  | panics
  | returns (val : α) (err : Option String)
  deriving DecidableEq, Repr

/-- Go slice: `none` is the nil slice. -/
abbrev Slice (α : Type) : Type := Option (List α)

/-- Built-in `append(s, x)`. -/
def Slice.append {α : Type} (s : Slice α) (x : α) : Slice α :=
  match s with
  | none => some [x]
  | some xs => some (xs ++ [x])

/-- Elements of a slice; the nil slice has none. -/
def Slice.elems {α : Type} (s : Slice α) : List α :=
  match s with
  | none => []
  | some xs => xs

/-- Built-in `len(s)`. -/
def Slice.len {α : Type} (s : Slice α) : Nat := (Slice.elems s).length

/-! ## The data model of package `sdk` -/

/-- Struct `Info`; `Version` is the string type of that name. -/
structure Info where
  Name : String
  Version : String
  Note : String
  Path : String
  deriving DecidableEq, Repr

/-- Struct `Package`. -/
structure Package where
  Main : Info
  Additional : Slice Info
  deriving DecidableEq, Repr

/-- Struct `env.KV`. -/
structure KV where
  Key : String
  Value : String
  deriving DecidableEq, Repr

/-- Constant `PluginVersion`. -/
def PluginVersion : String := "0.0.1"

/-- Guest runtime `lua.LState`, as far as the bridge uses it. -/
structure LState where
  /-- Protected call `L.CallByParam(lua.P{Fn: fn, NRet: 1, Protect: true}, args...)`
  followed by reading the one returned value: the guest error, or that value. -/
  CallByParam : LValue → List LValue → Except String LValue
  /-- Address of the `k`-th table that `L.NewTable()` makes during one operation. -/
  alloc : Nat → String
  /-- Table of globals, which carries no metatable. -/
  globals : LTable := .mk "" [] [] []
  /-- Flag telling whether `L.Close()` has been called. -/
  closed : Bool := false

/-- Call `L.NewTable()`, the `k`-th of the running operation. -/
def LState.NewTable (L : LState) (k : Nat) : LTable := .mk (L.alloc k) [] [] []

/-- Struct `LuaPlugin`. -/
structure LuaPlugin where
  state : Option LState
  pluginObj : LTable
  Name : String
  Author : String
  Version : String
  UpdateUrl : String

/-- Message of the shape error. -/
def notATable : String := "the return value is not a table"

/-! ## Available -/

/-- Inner callback of `Available`, over the captured `err` and `additionalArr`. -/
def availableItem (_key value : LValue) (st : Option String × Slice Info) :
    Option String × Slice Info :=
  match value with
  | .LTableV itemTable =>
    (st.1, Slice.append st.2
      { Name := (itemTable.RawGetString "name").toGoString
        Version := (itemTable.RawGetString "version").toGoString
        Note := ""
        Path := "" })
  | _ => (some notATable, st.2)

/-- Outer callback of `Available`, over the captured `err` and `result`. -/
def availableEntry (name : String) (_key value : LValue)
    (st : Option String × Slice Package) : Option String × Slice Package :=
  match value with
  | .LTableV kvTable =>
    let v := (kvTable.RawGetString "version").toGoString
    let note := (kvTable.RawGetString "note").toGoString
    let mainSdk : Info := { Name := name, Version := v, Note := note, Path := "" }
    let additional := kvTable.RawGetString "additional"
    let inner : Option String × Slice Info :=
      match additional with
      | .LTableV tb => if tb.Len ≠ 0 then tb.ForEach availableItem (st.1, none) else (st.1, none)
      | _ => (st.1, none)
    (inner.1, Slice.append st.2 { Main := mainSdk, Additional := inner.2 })
  | _ => (some notATable, st.2)

/-- Decoding done by `Available` on the value the guest returned. -/
def availableDecode (name : String) (ret : LValue) : GoResult (Slice Package) :=
  let table := ToTable ret
  if LTable.TypeOfPtr table = .LTNil then .returns (some []) none
  else
    match table with
    | none => .panics
    | some tb =>
      let st := tb.ForEach (availableEntry name) (none, none)
      match st.1 with
      | some e => .returns none (some e)
      | none => .returns st.2 none

/-- Context record `Available` builds: `plugin_version`. -/
def availableContext (L : LState) : LTable :=
  (L.NewTable 0).RawSetString "plugin_version" (.LString PluginVersion)

/-- Method `LuaPlugin.Available`. -/
def LuaPlugin.Available (l : LuaPlugin) : GoResult (Slice Package) :=
  match l.state with
  | none => .panics
  | some L =>
    let ctxTable := availableContext L
    match l.pluginObj.RawGetString "Available" with
    | .LFunction f =>
      match L.CallByParam (.LFunction f) [.LTableV l.pluginObj, .LTableV ctxTable] with
      | .error e => .returns none (some e)
      | .ok ret => availableDecode l.Name ret
    | _ => .panics

/-! ## PreInstall -/

/-- Callback of `PreInstall`, over the captured `err` and `additionalArr`. -/
def preInstallItem (_key value : LValue) (st : Option String × Slice Info) :
    Option String × Slice Info :=
  match value with
  | .LTableV kvTable =>
    let s := (kvTable.RawGetString "url").toGoString
    (st.1, Slice.append st.2
      { Name := (kvTable.RawGetString "name").toGoString
        Version := (kvTable.RawGetString "version").toGoString
        Note := ""
        Path := s })
  | _ => (some notATable, st.2)

/-- Decoding done by `PreInstall` on the value the guest returned. -/
def preInstallDecode (name : String) (ret : LValue) : GoResult (Option Package) :=
  let table := ToTable ret
  if LTable.TypeOfPtr table = .LTNil then .returns none none
  else
    match table with
    | none => .panics
    | some tb =>
      let v := (tb.RawGetString "version").toGoString
      let muStr := (tb.RawGetString "url").toGoString
      let mainSdk : Info := { Name := name, Version := v, Note := "", Path := muStr }
      let additional := tb.RawGetString "additional"
      match additional with
      | .LTableV a =>
        if a.Len ≠ 0 then
          let st := a.ForEach preInstallItem (none, none)
          match st.1 with
          | some e => .returns none (some e)
          | none => .returns (some { Main := mainSdk, Additional := st.2 }) none
        else .returns (some { Main := mainSdk, Additional := none }) none
      | _ => .returns (some { Main := mainSdk, Additional := none }) none

/-- Context record `PreInstall` builds: `version`. -/
def preInstallContext (L : LState) (version : String) : LTable :=
  (L.NewTable 0).RawSetString "version" (.LString version)

/-- Method `LuaPlugin.PreInstall`. -/
def LuaPlugin.PreInstall (l : LuaPlugin) (version : String) : GoResult (Option Package) :=
  match l.state with
  | none => .panics
  | some L =>
    let ctxTable := preInstallContext L version
    match l.pluginObj.RawGetString "PostInstall" with
    | .LFunction f =>
      match L.CallByParam (.LFunction f) [.LTableV l.pluginObj, .LTableV ctxTable] with
      | .error e => .returns none (some e)
      | .ok ret => preInstallDecode l.Name ret
    | _ => .panics

/-! ## EnvKeys -/

/-- Message of the empty-result error. -/
def noEnvironmentVariables : String := "no environment variables provided"

/-- Callback of `EnvKeys`, over the captured `err` and `envKeys`. -/
def envKeysEntry (_key value : LValue) (st : Option String × Slice KV) :
    Option String × Slice KV :=
  match value with
  | .LTableV kvTable =>
    let key := kvTable.RawGetString "key"
    let value := kvTable.RawGetString "value"
    (st.1, Slice.append st.2 { Key := key.toGoString, Value := value.toGoString })
  | _ => (some notATable, st.2)

/-- Decoding done by `EnvKeys` on the value the guest returned. -/
def envKeysDecode (ret : LValue) : GoResult (Slice KV) :=
  let table := ToTable ret
  if LTable.TypeOfPtr table = .LTNil then .returns none (some noEnvironmentVariables)
  else
    match table with
    | none => .panics
    | some tb =>
      if tb.Len = 0 then .returns none (some noEnvironmentVariables)
      else
        let st := tb.ForEach envKeysEntry (none, none)
        match st.1 with
        | some e => .returns none (some e)
        | none => .returns st.2 none

/-- Context record `EnvKeys` builds: `path`, and `additional_path` when the package
has additional artifacts. -/
def envKeysContext (L : LState) (sdkPackage : Package) : LTable :=
  let ctxTable := (L.NewTable 0).RawSetString "path" (.LString sdkPackage.Main.Path)
  if Slice.len sdkPackage.Additional ≠ 0 then
    let additionalTable := (Slice.elems sdkPackage.Additional).foldl
      (fun t v => t.RawSetString v.Name (.LString v.Path)) (L.NewTable 1)
    ctxTable.RawSetString "additional_path" (.LTableV additionalTable)
  else ctxTable

/-- Method `LuaPlugin.EnvKeys`; the package and its `Main` are taken non-nil. -/
def LuaPlugin.EnvKeys (l : LuaPlugin) (sdkPackage : Package) : GoResult (Slice KV) :=
  match l.state with
  | none => .panics
  | some L =>
    let ctxTable := envKeysContext L sdkPackage
    match L.CallByParam (l.pluginObj.RawGetString "EnvKeys")
        [.LTableV l.pluginObj, .LTableV ctxTable] with
    | .error e => .returns none (some e)
    | .ok ret => envKeysDecode ret

/-! ## PostInstall -/

/-- Record `sdkTable` that `PostInstall` builds for one installed artifact, as the
`k`-th table of the operation. -/
def sdkTable (L : LState) (k : Nat) (v : Info) : LTable :=
  (((L.NewTable k).RawSetString "name" (.LString v.Name)).RawSetString "version"
    (.LString v.Version)).RawSetString "path" (.LString v.Path)

/-- Loop of `PostInstall` over `sdks`: `st` holds `sdkArr` and the number of tables made
so far. -/
def sdkArrLoop (L : LState) (sdks : List Info) (st : LTable × Nat) : LTable × Nat :=
  sdks.foldl (fun acc v =>
    (acc.1.RawSetString v.Name (.LTableV (sdkTable L acc.2 v)), acc.2 + 1)) st

/-- Context record `PostInstall` builds: `sdkInfo` and `rootPath`. -/
def postInstallContext (L : LState) (rootPath : String) (sdks : Slice Info) : LTable :=
  let st := sdkArrLoop L (Slice.elems sdks) (L.NewTable 0, 1)
  ((L.NewTable st.2).RawSetString "sdkInfo" (.LTableV st.1)).RawSetString "rootPath"
    (.LString rootPath)

/-- Method `LuaPlugin.PostInstall`; the elements of `sdks` are taken non-nil. -/
def LuaPlugin.PostInstall (l : LuaPlugin) (rootPath : String) (sdks : Slice Info) :
    GoResult Unit :=
  match l.state with
  | none => .panics
  | some L =>
    let ctxTable := postInstallContext L rootPath sdks
    match l.pluginObj.RawGetString "PostInstall" with
    | .LFunction f =>
      match L.CallByParam (.LFunction f) [.LTableV l.pluginObj, .LTableV ctxTable] with
      | .error e => .returns () (some e)
      | .ok _ => .returns () none
    | _ => .panics

/-! ## checkValid, Close and NewLuaPlugin -/

/-- Constant `LuaPluginObjKey`. -/
def LuaPluginObjKey : String := "PLUGIN"

/-- Constant `OsType`. -/
def OsType : String := "OS_TYPE"

/-- Constant `ArchType`. -/
def ArchType : String := "ARCH_TYPE"

/-- Method `LuaPlugin.checkValid`. -/
def LuaPlugin.checkValid (l : LuaPlugin) : Option String :=
  match l.state with
  | none => some "lua vm is nil"
  | some _ =>
    let obj := l.pluginObj
    if (obj.RawGetString "Available").isNil then some "[Available] function not found"
    else if (obj.RawGetString "PostInstall").isNil then some "[PostInstall] function not found"
    else if (obj.RawGetString "EnvKeys").isNil then some "[EnvKeys] function not found"
    else none

/-- Call `L.Close()`. -/
def LState.Close (L : LState) : LState := { L with closed := true }

/-- Method `LuaPlugin.Close`: the plugin with its runtime closed, `none` for the panic
on a nil runtime. -/
def LuaPlugin.Close (l : LuaPlugin) : Option LuaPlugin :=
  match l.state with
  | none => none
  | some L => some { l with state := some L.Close }

/-- Call `L.GetGlobal(name)`. -/
def LState.GetGlobal (L : LState) (name : String) : LValue := L.globals.RawGetString name

/-- Call `L.SetGlobal(name, value)`. -/
def LState.SetGlobal (L : LState) (name : String) (value : LValue) : LState :=
  { L with globals := L.globals.RawSetString name value }

/-- Interpreter behind `NewLuaPlugin`. -/
structure Interpreter where
  /-- Fresh runtime: `lua.NewState()` followed by `lua_module.Preload(L)`. -/
  NewState : LState
  /-- Run `L.DoString(content)`: the runtime after the run, and the error of the run. -/
  DoString : LState → String → LState × Option String

/-- Outcome of `NewLuaPlugin`: what it returns, and the guest environment it created at
its start, in the state it is in when the function returns. -/
structure Construction where
  result : GoResult (Option LuaPlugin)
  env : LState

/-- Metadata step of `NewLuaPlugin`: the four optional fields, each read when it is
not `LNil`. -/
def readMetadata (PLUGIN : LTable) (source : LuaPlugin) : LuaPlugin :=
  let source :=
    if (PLUGIN.RawGetString "name").Type ≠ .LTNil then
      { source with Name := (PLUGIN.RawGetString "name").toGoString }
    else source
  let source :=
    if (PLUGIN.RawGetString "version").Type ≠ .LTNil then
      { source with Version := (PLUGIN.RawGetString "version").toGoString }
    else source
  let source :=
    if (PLUGIN.RawGetString "updateUrl").Type ≠ .LTNil then
      { source with UpdateUrl := (PLUGIN.RawGetString "updateUrl").toGoString }
    else source
  if (PLUGIN.RawGetString "author").Type ≠ .LTNil then
    { source with Author := (PLUGIN.RawGetString "author").toGoString }
  else source

/-- Function `NewLuaPlugin`. -/
def NewLuaPlugin (interp : Interpreter) (content osType archType : String) : Construction :=
  let L := interp.NewState
  match interp.DoString L content with
  | (L, some _) => { result := .returns none (some "content cannot be executed"), env := L }
  | (L, none) =>
    let L := L.SetGlobal OsType (.LString osType)
    let L := L.SetGlobal ArchType (.LString archType)
    let pluginOjb := L.GetGlobal LuaPluginObjKey
    if pluginOjb.Type = .LTNil then
      { result := .returns none (some "plugin object not found"), env := L }
    else
      match pluginOjb with
      | .LTableV PLUGIN =>
        let source : LuaPlugin :=
          { state := some L, pluginObj := PLUGIN, Name := "", Author := "", Version := "",
            UpdateUrl := "" }
        match source.checkValid with
        | some err => { result := .returns none (some err), env := L }
        | none => { result := .returns (some (readMetadata PLUGIN source)) none, env := L }
      | _ => { result := .panics, env := L }

/-! ## Shapes of guest values named by the specification -/

/-- Test that a value is a table. -/
def LValue.isTable : LValue → Bool
  | .LTableV _ => true
  | _ => false

/-- Values `ForEach` visits in a table. -/
def LTable.values (tb : LTable) : List LValue := tb.pairs.map Prod.snd

/-- Sequence with the given entries: an array-like table holding them under the keys
`1..N`, none of them `LNil`, and nothing in the hash parts. -/
def LTable.IsSequence (tb : LTable) (entries : List LValue) : Prop :=
  tb.array = entries ∧ tb.strdict = [] ∧ tb.dict = [] ∧ ∀ e ∈ entries, e.isNil = false

/-- Field of a record that holds the given string. -/
def LValue.HasStringField (v : LValue) (field value : String) : Prop :=
  ∃ tb, v = .LTableV tb ∧ tb.RawGetString field = .LString value

/-- Field of a record that holds the given table. -/
def LValue.HasTableField (v : LValue) (field : String) (value : LTable) : Prop :=
  ∃ tb, v = .LTableV tb ∧ tb.RawGetString field = .LTableV value

/-- Field of a record that is absent. -/
def LValue.LacksField (v : LValue) (field : String) : Prop :=
  ∃ tb, v = .LTableV tb ∧ tb.RawGetString field = .LNil

/-- Sub-mapping `additional` of an entry of `Available` whose shape is accepted: it is
absent, or it is a table all of whose values are tables. -/
def LValue.AdditionalAccepted (v : LValue) : Prop :=
  ∃ tb, v = .LTableV tb ∧
    (tb.RawGetString "additional" = .LNil ∨
      ∃ a, tb.RawGetString "additional" = .LTableV a ∧ ∀ x ∈ a.values, x.isTable = true)

/-- Example plugin: an object with the three capabilities bound to functions, on a
runtime whose protected call answers `reply` whatever is called. -/
def examplePlugin (reply : Except String LValue) : LuaPlugin :=
  { state := some { CallByParam := fun _ _ => reply, alloc := fun k => "0xc" ++ toString k }
    pluginObj := .mk "0xa0" [] [("Available", .LFunction "0xf1"),
      ("PostInstall", .LFunction "0xf2"), ("EnvKeys", .LFunction "0xf3")] []
    Name := "node"
    Author := ""
    Version := ""
    UpdateUrl := "" }

/-- Record with the given string fields. -/
def record (ptr : String) (fields : List (String × String)) : LValue :=
  .LTableV (.mk ptr [] (fields.map (fun kv => (kv.1, LValue.LString kv.2))) [])

/-- Array-like table with the given entries. -/
def sequence (ptr : String) (entries : List LValue) : LValue :=
  .LTableV (.mk ptr entries [] [])

/-! ## Example replies of the guest -/

/-- Reply of `Available` with one entry `{version="1.2.3", note="stable"}`. -/
def oneStableEntry : LTable :=
  .mk "0x10" [record "0x11" [("version", "1.2.3"), ("note", "stable")]] [] []

/-- Sub-mapping whose only entry sits under a string key and is a number. -/
def hashOnlyAdditional : LTable := .mk "0x22" [] [("npm", .LNumber "9")] []

/-- Reply of `Available` with one entry `{version="1.2.3", additional={npm=9}}`. -/
def entryWithHashOnlyAdditional : LTable :=
  .mk "0x20" [.LTableV (.mk "0x21" []
    [("version", .LString "1.2.3"), ("additional", .LTableV hashOnlyAdditional)] [])] [] []

/-- Reply of `Available` with a good entry, a number, and another good entry. -/
def entriesAroundNumber : LTable :=
  .mk "0x30" [record "0x31" [("version", "1.0.0"), ("note", "")], .LNumber "7",
    record "0x32" [("version", "2.0.0"), ("note", "")]] [] []

/-- Package handed to `EnvKeys` in the examples: `Main.Path` is `/opt/x`. -/
def examplePackage : Package :=
  { Main := { Name := "node", Version := "18.0.0", Note := "", Path := "/opt/x" }
    Additional := none }

/-- Reply of `EnvKeys` with the one record `{key="PATH_EXT", value="/opt/x/bin"}`. -/
def onePathEntry : LTable :=
  .mk "0x40" [record "0x41" [("key", "PATH_EXT"), ("value", "/opt/x/bin")]] [] []

/-- Reply of `EnvKeys` that is the empty table. -/
def emptyTable : LTable := .mk "0x50" [] [] []

/-- Reply of `EnvKeys` whose records lack `key`, or hold a number as `value`. -/
def recordsOfWrongShape : LTable :=
  .mk "0x60" [record "0x61" [("value", "/opt/x/bin")],
    .LTableV (.mk "0x62" [] [("key", .LString "N"), ("value", .LNumber "3")] [])] [] []

/-- Reply of `EnvKeys` with a good record followed by a string. -/
def recordThenString : LTable :=
  .mk "0x70" [record "0x71" [("key", "A"), ("value", "1")], .LString "B=2"] [] []

/-- Reply of `PreInstall` that lacks `version` and `url` and whose `additional` holds
one record lacking `name`, `version` and `url`. -/
def recordLackingFields : LTable :=
  .mk "0x80" [] [("additional", sequence "0x81" [record "0x82" []])] []

/-- Reply of `PreInstall` whose `additional` holds a number under a string key. -/
def recordWithHashOnlyAdditional : LTable :=
  .mk "0x90" [] [("version", .LString "18.0.0"), ("url", .LString "https://x/node.tgz"),
    ("additional", .LTableV hashOnlyAdditional)] []

/-- Reply of `PreInstall` with a primary artifact and one additional artifact. -/
def nodeWithNpm : LTable :=
  .mk "0xa1" [] [("version", .LString "18.0.0"), ("url", .LString "https://x/node.tgz"),
    ("additional", sequence "0xa2"
      [record "0xa3" [("name", "npm"), ("version", "9.0.0"), ("url", "https://x/npm.tgz")]])] []

/-- Reply of `PreInstall` whose `additional` sequence holds a record and a boolean. -/
def additionalWithBoolean : LTable :=
  .mk "0xb1" [] [("version", .LString "18.0.0"), ("url", .LString "https://x/node.tgz"),
    ("additional", sequence "0xb2"
      [record "0xb3" [("name", "npm"), ("version", "9.0.0"), ("url", "https://x/npm.tgz")],
        .LBool true])] []

/-- Test that a value is a function. -/
def LValue.isFunction : LValue → Bool
  | .LFunction _ => true
  | _ => false

/-- Field of a table that is present: the raw lookup does not give `LNil`. -/
def LTable.Present (tb : LTable) (key : String) : Prop := tb.RawGetString key ≠ .LNil

/-- Example interpreter: running any source leaves the given table of globals and
the given error. -/
def exampleInterpreter (globals : LTable) (err : Option String) : Interpreter :=
  { NewState := { CallByParam := fun _ _ => .ok .LNil, alloc := fun k => "0xc" ++ toString k }
    DoString := fun L _ => ({ L with globals := globals }, err) }

/-- Globals left by a source whose `PLUGIN` lacks only `EnvKeys`. -/
def globalsLackingEnvKeys : LTable :=
  .mk "0xd0" [] [("PLUGIN", .LTableV (.mk "0xd1" []
    [("Available", .LFunction "0xf1"), ("PostInstall", .LFunction "0xf2")] []))] []

/-- Globals left by a source that binds `PLUGIN` to the number 42. -/
def globalsWithNumberPlugin : LTable := .mk "0xd2" [] [("PLUGIN", .LNumber "42")] []

/-- Globals left by a source whose `PLUGIN` binds `Available` to the number 5. -/
def globalsWithNumberAvailable : LTable :=
  .mk "0xd3" [] [("PLUGIN", .LTableV (.mk "0xd4" []
    [("Available", .LNumber "5"), ("PostInstall", .LFunction "0xf2"),
      ("EnvKeys", .LFunction "0xf3")] []))] []

/-- Globals left by a source that binds nothing. -/
def noGlobals : LTable := .mk "0xd5" [] [] []

/-- Info whose `Name` is the string form of the `name` field of a table entry of the
sub-mapping `a`. -/
def NamedIn (a : LTable) (info : Info) : Prop :=
  ∃ item, LValue.LTableV item ∈ a.values ∧ info.Name = (item.RawGetString "name").toGoString

/-- Package whose additional infos are all named after entries of the `additional`
sub-mapping of the record `tb`. -/
def AdditionalNamedIn (tb : LTable) (pkg : Package) : Prop :=
  ∀ info ∈ Slice.elems pkg.Additional,
    ∃ a, tb.RawGetString "additional" = .LTableV a ∧ NamedIn a info

/-- Package decoded by `Available` from the entry `e`: the entry is a table, `Main` holds
the plugin name and the string forms of the fields `version` and `note`, and the
additional infos are named after entries of its `additional`. -/
def DecodedEntry (name : String) (e : LValue) (pkg : Package) : Prop :=
  ∃ kvTable, e = .LTableV kvTable ∧
    pkg.Main = { Name := name, Version := (kvTable.RawGetString "version").toGoString,
                 Note := (kvTable.RawGetString "note").toGoString, Path := "" } ∧
    AdditionalNamedIn kvTable pkg

/-- Reply of `Available` with the one entry `{version="1.2.3"}`, which has no `note`. -/
def entryWithoutNote : LTable := .mk "0xe0" [record "0xe1" [("version", "1.2.3")]] [] []

/-- Additional sequence holding one record whose `name` is the empty string. -/
def additionalWithEmptyName : LTable :=
  .mk "0xe3" [record "0xe4" [("name", ""), ("version", "9.0.0"), ("url", "https://x/npm.tgz")]]
    [] []

/-- Reply of `Available` with one entry whose `additional` names an artifact with the
empty string. -/
def entryWithEmptyName : LTable :=
  .mk "0xe5" [.LTableV (.mk "0xe6" [] [("version", .LString "1.2.3"),
    ("note", .LString ""), ("additional", .LTableV additionalWithEmptyName)] [])] [] []

/-- Reply of `PreInstall` whose `additional` names an artifact with the empty string. -/
def recordWithEmptyName : LTable :=
  .mk "0xe7" [] [("version", .LString "18.0.0"), ("url", .LString "https://x/node.tgz"),
    ("additional", .LTableV additionalWithEmptyName)] []

/-- Last Info of the list that bears the name `n`. -/
def lastNamed (n : String) : List Info → Option Info
  | [] => none
  | v :: rest =>
    match lastNamed n rest with
    | some w => some w
    | none => if v.Name = n then some v else none

/-- Value that is the record `{name, version, path}` of the Info `v`. -/
def IsInfoRecord (val : LValue) (v : Info) : Prop :=
  ∃ t, val = .LTableV t ∧ t.RawGetString "name" = .LString v.Name ∧
    t.RawGetString "version" = .LString v.Version ∧ t.RawGetString "path" = .LString v.Path

/-- Runtime of the examples. -/
def exampleState : LState :=
  { CallByParam := fun _ _ => .ok .LNil, alloc := fun k => "0xc" ++ toString k }

/-- Two installed artifacts that share the name `node`. -/
def twoNodes : Slice Info :=
  some [{ Name := "node", Version := "18.0.0", Note := "", Path := "/a" },
        { Name := "node", Version := "20.0.0", Note := "", Path := "/b" }]

/-- Installed artifacts `node` and `npm`. -/
def nodeAndNpm : Slice Info :=
  some [{ Name := "node", Version := "18.0.0", Note := "", Path := "x" },
        { Name := "npm", Version := "9.0.0", Note := "", Path := "y" }]

/-- Package of the round-trip example. -/
def nodePackage : Package :=
  { Main := { Name := "node", Version := "18.0.0", Note := "", Path := "x" }
    Additional := some [{ Name := "npm", Version := "9.0.0", Note := "", Path := "y" }] }

/-- Guest-authored record of the shape `PreInstall` decodes, for `nodePackage`. -/
def nodePackageReply : LTable :=
  .mk "0xe8" [] [("version", .LString "18.0.0"), ("url", .LString "x"),
    ("additional", sequence "0xe9"
      [record "0xea" [("name", "npm"), ("version", "9.0.0"), ("url", "y")]])] []

/-- Reply of `EnvKeys` whose only entry sits under the string key `JAVA_HOME`. -/
def javaHomeReply : LTable :=
  .mk "0xeb" [] [("JAVA_HOME", record "0xec" [("key", "JAVA_HOME"), ("value", "/opt/x")])] []

/-! ## Helper lemmas: folds, slices, tables -/

theorem foldl_sticky {σ β : Type} (step : σ → β → σ) (P : σ → Prop)
    (hP : ∀ s b, P s → P (step s b)) : ∀ (xs : List β) (s : σ), P s → P (xs.foldl step s) := by
  intro xs
  induction xs with
  | nil => intro s hs; simpa using hs
  | cons x rest ih => intro s hs; exact ih _ (hP s x hs)

theorem foldl_hits {σ β : Type} (step : σ → β → σ) (P : σ → Prop) (Bad : β → Prop)
    (hP : ∀ s b, P s → P (step s b)) (hB : ∀ s b, Bad b → P (step s b)) :
    ∀ (xs : List β) (s : σ), (∃ b ∈ xs, Bad b) → P (xs.foldl step s) := by
  intro xs
  induction xs with
  | nil => intro s h; obtain ⟨b, hb, _⟩ := h; cases hb
  | cons x rest ih =>
    intro s h
    obtain ⟨b, hb, hbad⟩ := h
    rcases List.mem_cons.mp hb with rfl | hmem
    · exact foldl_sticky step P hP rest _ (hB s b hbad)
    · exact ih _ ⟨b, hmem, hbad⟩

theorem Slice.elems_append {α : Type} (s : Slice α) (x : α) :
    Slice.elems (Slice.append s x) = Slice.elems s ++ [x] := by
  cases s <;> rfl

theorem LValue.isTable_iff (v : LValue) : v.isTable = true ↔ ∃ tb, v = .LTableV tb := by
  cases v <;> simp [LValue.isTable]

theorem LTable.mem_values (tb : LTable) (x : LValue) :
    x ∈ tb.values ↔ ∃ kv ∈ tb.pairs, kv.2 = x := by
  simp [LTable.values]

theorem LTable.pairs_of_sequence (tb : LTable) (entries : List LValue)
    (h : tb.IsSequence entries) : tb.pairs.map Prod.snd = entries := by
  obtain ⟨ha, hs, hd, hn⟩ := h
  have hfilter : tb.array.enum.filter (fun iv => !iv.2.isNil) = tb.array.enum := by
    apply List.filter_eq_self.mpr
    intro iv hiv
    have : iv.2 ∈ tb.array := by
      have := List.mem_map_of_mem Prod.snd hiv
      simpa [List.enum_map_snd] using this
    simp [hn iv.2 (ha ▸ this)]
  simp only [LTable.pairs, hfilter, hs, hd, List.filter_nil, List.map_nil, List.append_nil,
    List.map_map]
  have : (Prod.snd ∘ fun iv : Nat × LValue => (LValue.LNumber (toString (iv.1 + 1)), iv.2))
      = Prod.snd := by
    funext iv; rfl
  rw [this, List.enum_map_snd, ha]

theorem lenLoop_ne_zero (xs : List LValue) :
    ∀ prev, lenLoop prev xs ≠ 0 → ∃ v ∈ xs, v.isNil = false := by
  induction xs with
  | nil => intro prev h; exact absurd rfl h
  | cons lv rest ih =>
    intro prev h
    by_cases hl : lv.isNil = false
    · exact ⟨lv, List.mem_cons_self _ _, hl⟩
    · have hl2 : lv.isNil = true := by simpa using hl
      simp only [lenLoop, hl2, Bool.not_true, Bool.and_false] at h
      obtain ⟨v, hv, hvn⟩ := ih lv (by simpa using h)
      exact ⟨v, List.mem_cons_of_mem _ hv, hvn⟩

theorem foldl_preserved {σ β : Type} (step : σ → β → σ) (P : σ → Prop) :
    ∀ (xs : List β) (s : σ), (∀ t b, b ∈ xs → P t → P (step t b)) → P s →
      P (xs.foldl step s) := by
  intro xs
  induction xs with
  | nil => intro s _ hs; simpa using hs
  | cons x rest ih =>
    intro s h hs
    exact ih _ (fun t b hb ht => h t b (List.mem_cons_of_mem _ hb) ht)
      (h s x (List.mem_cons_self _ _) hs)

theorem LTable.mem_values_of_mem_pairs (tb : LTable) (kv : LValue × LValue)
    (h : kv ∈ tb.pairs) : kv.2 ∈ tb.values :=
  (LTable.mem_values tb kv.2).mpr ⟨kv, h, rfl⟩

/-! ## Helper lemmas: the callbacks of Available -/

theorem availableItem_of_table (k v : LValue) (st : Option String × Slice Info)
    (h : v.isTable = true) : (availableItem k v st).1 = st.1 := by
  obtain ⟨tb, rfl⟩ := (LValue.isTable_iff v).mp h
  rfl

theorem availableItem_sticky (k v : LValue) (st : Option String × Slice Info)
    (h : st.1.isSome = true) : (availableItem k v st).1.isSome = true := by
  cases v <;> simp [availableItem, h]

theorem availableItem_bad (k v : LValue) (st : Option String × Slice Info)
    (h : v.isTable = false) : (availableItem k v st).1.isSome = true := by
  cases v <;> simp_all [availableItem, LValue.isTable]

theorem forEach_availableItem_ok (a : LTable) (h : ∀ x ∈ a.values, x.isTable = true)
    (st : Option String × Slice Info) : (a.ForEach availableItem st).1 = st.1 := by
  unfold LTable.ForEach
  refine foldl_preserved _ (fun s => s.1 = st.1) a.pairs st ?_ rfl
  intro t kv hkv ht
  rw [availableItem_of_table kv.1 kv.2 t (h _ (LTable.mem_values_of_mem_pairs a kv hkv))]
  exact ht

theorem forEach_availableItem_sticky (a : LTable) (st : Option String × Slice Info)
    (h : st.1.isSome = true) : (a.ForEach availableItem st).1.isSome = true := by
  unfold LTable.ForEach
  exact foldl_sticky _ (fun s => s.1.isSome = true)
    (fun s kv hs => availableItem_sticky kv.1 kv.2 s hs) a.pairs st h

theorem forEach_availableItem_bad (a : LTable) (st : Option String × Slice Info)
    (h : ∃ x ∈ a.values, x.isTable = false) :
    (a.ForEach availableItem st).1.isSome = true := by
  unfold LTable.ForEach
  obtain ⟨x, hx, hbad⟩ := h
  obtain ⟨kv, hkv, rfl⟩ := (LTable.mem_values a x).mp hx
  exact foldl_hits _ (fun s => s.1.isSome = true) (fun kv => kv.2.isTable = false)
    (fun s kv hs => availableItem_sticky kv.1 kv.2 s hs)
    (fun s kv hb => availableItem_bad kv.1 kv.2 s hb) a.pairs st ⟨kv, hkv, hbad⟩

theorem availableEntry_sticky (name : String) (k v : LValue)
    (st : Option String × Slice Package) (h : st.1.isSome = true) :
    (availableEntry name k v st).1.isSome = true := by
  cases v with
  | LTableV kvTable =>
    simp only [availableEntry]
    split
    · split
      · exact forEach_availableItem_sticky _ _ h
      · exact h
    · exact h
  | _ => simp [availableEntry]

theorem availableEntry_bad_value (name : String) (k v : LValue)
    (st : Option String × Slice Package) (h : v.isTable = false) :
    (availableEntry name k v st).1.isSome = true := by
  cases v <;> simp_all [availableEntry, LValue.isTable]

theorem availableEntry_bad_additional (name : String) (k : LValue) (kvTable a : LTable)
    (st : Option String × Slice Package)
    (hadd : kvTable.RawGetString "additional" = .LTableV a) (hlen : a.Len ≠ 0)
    (hbad : ∃ x ∈ a.values, x.isTable = false) :
    (availableEntry name k (.LTableV kvTable) st).1.isSome = true := by
  simp only [availableEntry, hadd, hlen, ne_eq, not_false_eq_true, if_true]
  exact forEach_availableItem_bad a _ hbad

theorem availableEntry_ok (name v n : String) (e : LValue)
    (hv : e.HasStringField "version" v) (hn : e.HasStringField "note" n)
    (hadd : e.AdditionalAccepted) :
    ∃ add, (e.LacksField "additional" → add = none) ∧
      ∀ k res, availableEntry name k e (none, res) =
        (none, Slice.append res
          { Main := { Name := name, Version := v, Note := n, Path := "" }, Additional := add }) := by
  obtain ⟨tb, rfl, hv⟩ := hv
  obtain ⟨tb2, h2, hn⟩ := hn
  obtain ⟨tb3, h3, hadd⟩ := hadd
  cases h2
  cases h3
  rcases hadd with hnil | ⟨a, ha, hall⟩
  · refine ⟨none, fun _ => rfl, fun k res => ?_⟩
    simp [availableEntry, hv, hn, hnil, LValue.toGoString]
  · by_cases hlen : a.Len = 0
    · refine ⟨none, fun _ => rfl, fun k res => ?_⟩
      simp [availableEntry, hv, hn, ha, hlen, LValue.toGoString]
    · refine ⟨(a.ForEach availableItem (none, none)).2, ?_, fun k res => ?_⟩
      · rintro ⟨tb4, h4, hlack⟩
        cases h4
        rw [ha] at hlack
        cases hlack
      · have h1 := forEach_availableItem_ok a hall (none, none)
        simp only [availableEntry, hv, hn, ha, hlen, ne_eq, not_false_eq_true, if_true,
          LValue.toGoString]
        rw [h1]

theorem forEach_availableEntry_ok (name : String) :
    ∀ (ps : List (LValue × LValue)) (recs : List (String × String)) (res : Slice Package),
      List.Forall₂ (fun (p : LValue × LValue) (r : String × String) =>
        p.2.HasStringField "version" r.1 ∧ p.2.HasStringField "note" r.2 ∧
          p.2.AdditionalAccepted) ps recs →
      ∃ out news, ps.foldl (fun acc kv => availableEntry name kv.1 kv.2 acc) (none, res)
          = (none, out) ∧ Slice.elems out = Slice.elems res ++ news ∧
        news.map Package.Main =
          recs.map (fun r => ({ Name := name, Version := r.1, Note := r.2, Path := "" } : Info)) ∧
        List.Forall₂ (fun (p : LValue × LValue) (pkg : Package) =>
          p.2.LacksField "additional" → pkg.Additional = none) ps news := by
  intro ps recs res h
  induction h generalizing res with
  | nil => exact ⟨res, [], rfl, by simp, rfl, List.Forall₂.nil⟩
  | @cons p r ps recs hpr _ ih =>
    obtain ⟨add, hlack, hstep⟩ := availableEntry_ok name r.1 r.2 p.2 hpr.1 hpr.2.1 hpr.2.2
    obtain ⟨out, news, hout, helems, hmap, hadd⟩ := ih (Slice.append res
      { Main := { Name := name, Version := r.1, Note := r.2, Path := "" }, Additional := add })
    refine ⟨out, Package.mk ⟨name, r.1, r.2, ""⟩ add :: news, ?_, ?_, ?_, ?_⟩
    · rw [List.foldl_cons, hstep p.1 res]
      exact hout
    · rw [helems, Slice.elems_append]
      simp
    · simp [hmap]
    · exact List.Forall₂.cons hlack hadd

theorem available_eq_decode (l : LuaPlugin) (L : LState) (f : String) (ret : LValue)
    (hstate : l.state = some L)
    (hfn : l.pluginObj.RawGetString "Available" = .LFunction f)
    (hcall : L.CallByParam (.LFunction f) [.LTableV l.pluginObj, .LTableV (availableContext L)]
      = .ok ret) :
    l.Available = availableDecode l.Name ret := by
  simp only [LuaPlugin.Available, hstate, hfn, hcall]

/-! ## Available: the claims -/

/-- C1: when the guest `Available` returns a sequence of N record entries (string
`version` and `note`, an `additional` sub-mapping that is absent or holds tables
only), `Available` returns no error and N packages in sequence order, the i-th with
`Main` equal to the plugin name, the entry's `version` and its `note`, and with a
nil `Additional` wherever the entry has no `additional`. -/
theorem available_sequence_of_records (l : LuaPlugin) (L : LState) (f : String)
    (tb : LTable) (entries : List LValue) (recs : List (String × String))
    (hstate : l.state = some L)
    (hfn : l.pluginObj.RawGetString "Available" = .LFunction f)
    (hcall : L.CallByParam (.LFunction f) [.LTableV l.pluginObj, .LTableV (availableContext L)]
      = .ok (.LTableV tb))
    (hseq : tb.IsSequence entries)
    (hrec : List.Forall₂ (fun (e : LValue) (r : String × String) =>
      e.HasStringField "version" r.1 ∧ e.HasStringField "note" r.2 ∧ e.AdditionalAccepted)
      entries recs) :
    ∃ pkgs, l.Available = .returns pkgs none ∧ Slice.len pkgs = entries.length ∧
      (Slice.elems pkgs).map Package.Main =
        recs.map (fun r => ({ Name := l.Name, Version := r.1, Note := r.2, Path := "" } : Info)) ∧
      List.Forall₂ (fun (e : LValue) (pkg : Package) =>
        e.LacksField "additional" → pkg.Additional = none) entries (Slice.elems pkgs) := by
  have hvals := LTable.pairs_of_sequence tb entries hseq
  have hps : List.Forall₂ (fun (p : LValue × LValue) (r : String × String) =>
      p.2.HasStringField "version" r.1 ∧ p.2.HasStringField "note" r.2 ∧
        p.2.AdditionalAccepted) tb.pairs recs := by
    rw [← hvals] at hrec
    exact List.forall₂_map_left_iff.mp hrec
  obtain ⟨out, news, hfold, helems, hmap, hadd⟩ :=
    forEach_availableEntry_ok l.Name tb.pairs recs none hps
  have helems2 : Slice.elems out = news := by simpa [Slice.elems] using helems
  refine ⟨out, ?_, ?_, ?_, ?_⟩
  · rw [available_eq_decode l L f _ hstate hfn hcall]
    simp [availableDecode, ToTable, LTable.TypeOfPtr, LTable.ForEach, hfold]
  · have h1 : (Slice.elems out).length = recs.length := by
      rw [helems2, ← List.length_map news Package.Main, hmap, List.length_map]
    rw [Slice.len, h1, ← hrec.length_eq]
  · rw [helems2]; exact hmap
  · rw [helems2, ← hvals]
    exact List.forall₂_map_left_iff.mpr hadd

/-- Instance of `available_sequence_of_records` at an example reply of the guest. -/
theorem available_sequence_of_records_witness :
    ∃ pkgs, (examplePlugin (.ok (.LTableV oneStableEntry))).Available = .returns pkgs none ∧
      Slice.len pkgs = 1 ∧
      (Slice.elems pkgs).map Package.Main =
        [{ Name := "node", Version := "1.2.3", Note := "stable", Path := "" }] ∧
      List.Forall₂ (fun (e : LValue) (pkg : Package) =>
        e.LacksField "additional" → pkg.Additional = none)
        [record "0x11" [("version", "1.2.3"), ("note", "stable")]] (Slice.elems pkgs) :=
  available_sequence_of_records (examplePlugin (.ok (.LTableV oneStableEntry)))
    { CallByParam := fun _ _ => .ok (.LTableV oneStableEntry), alloc := fun k => "0xc" ++ toString k }
    "0xf1" oneStableEntry [record "0x11" [("version", "1.2.3"), ("note", "stable")]]
    [("1.2.3", "stable")] rfl rfl rfl
    ⟨rfl, rfl, rfl, by intro e he; rw [List.mem_singleton.mp he]; rfl⟩
    (List.Forall₂.cons ⟨⟨_, rfl, rfl⟩, ⟨_, rfl, rfl⟩, ⟨_, rfl, Or.inl rfl⟩⟩ List.Forall₂.nil)

/-- C2, counterexample: the entry `{version="1.2.3", additional={npm=9}}` has a value
inside its `additional` sub-mapping that is not a table, and `Available` returns a
package and no error. -/
theorem available_hash_only_additional_accepted :
    LValue.LTableV (.mk "0x21" []
        [("version", .LString "1.2.3"), ("additional", .LTableV hashOnlyAdditional)] [])
      ∈ entryWithHashOnlyAdditional.values ∧
    LValue.LNumber "9" ∈ hashOnlyAdditional.values ∧
    (LValue.LNumber "9").isTable = false ∧
    (examplePlugin (.ok (.LTableV entryWithHashOnlyAdditional))).Available =
      .returns (some [Package.mk
        { Name := "node", Version := "1.2.3", Note := "nil", Path := "" } none]) none :=
  ⟨List.mem_singleton.mpr rfl, List.mem_singleton.mpr rfl, rfl, by decide⟩

/-- C2, amended: when the table the guest `Available` returns has an entry value that
is not a table, or an entry whose `additional` sub-mapping has a non-zero sequence
length and holds a value that is not a table, `Available` returns a non-nil error and
a nil list. -/
theorem available_malformed_fails (l : LuaPlugin) (L : LState) (f : String) (tb : LTable)
    (hstate : l.state = some L)
    (hfn : l.pluginObj.RawGetString "Available" = .LFunction f)
    (hcall : L.CallByParam (.LFunction f) [.LTableV l.pluginObj, .LTableV (availableContext L)]
      = .ok (.LTableV tb))
    (hbad : (∃ e ∈ tb.values, e.isTable = false) ∨
      ∃ kvTable a, LValue.LTableV kvTable ∈ tb.values ∧
        kvTable.RawGetString "additional" = .LTableV a ∧ a.Len ≠ 0 ∧
        ∃ x ∈ a.values, x.isTable = false) :
    ∃ msg, l.Available = .returns none (some msg) := by
  have herr : (tb.ForEach (availableEntry l.Name) (none, none)).1.isSome = true := by
    unfold LTable.ForEach
    apply foldl_hits _ (fun s => s.1.isSome = true)
      (fun (kv : LValue × LValue) => kv.2.isTable = false ∨
        ∃ kvTable a, kv.2 = LValue.LTableV kvTable ∧
          kvTable.RawGetString "additional" = .LTableV a ∧ a.Len ≠ 0 ∧
          ∃ x ∈ a.values, x.isTable = false)
      (fun s kv hs => availableEntry_sticky l.Name kv.1 kv.2 s hs)
    · intro s kv hb
      rcases hb with hb | ⟨kvTable, a, hkv, hadd, hlen, hx⟩
      · exact availableEntry_bad_value l.Name kv.1 kv.2 s hb
      · rw [hkv]
        exact availableEntry_bad_additional l.Name kv.1 kvTable a s hadd hlen hx
    · rcases hbad with ⟨e, he, hb⟩ | ⟨kvTable, a, he, hadd, hlen, hx⟩
      · obtain ⟨kv, hkv, rfl⟩ := (LTable.mem_values tb e).mp he
        exact ⟨kv, hkv, Or.inl hb⟩
      · obtain ⟨kv, hkv, hkv2⟩ := (LTable.mem_values tb _).mp he
        exact ⟨kv, hkv, Or.inr ⟨kvTable, a, hkv2, hadd, hlen, hx⟩⟩
  obtain ⟨msg, hmsg⟩ := Option.isSome_iff_exists.mp herr
  refine ⟨msg, ?_⟩
  rw [available_eq_decode l L f _ hstate hfn hcall]
  simp [availableDecode, ToTable, LTable.TypeOfPtr, hmsg]

/-- Instance of `available_malformed_fails` at an example reply of the guest. -/
theorem available_malformed_fails_witness :
    ∃ msg, (examplePlugin (.ok (.LTableV entriesAroundNumber))).Available
      = .returns none (some msg) :=
  available_malformed_fails (examplePlugin (.ok (.LTableV entriesAroundNumber)))
    { CallByParam := fun _ _ => .ok (.LTableV entriesAroundNumber),
      alloc := fun k => "0xc" ++ toString k }
    "0xf1" entriesAroundNumber rfl rfl rfl
    (Or.inl ⟨.LNumber "7", List.mem_cons_of_mem _ (List.mem_cons_self _ _), rfl⟩)

/-- C3, the code at the failing input: when the guest `Available` returns `nil`, the
check `table.Type() == lua.LTNil` does not fire on the nil table pointer and
`Available` panics in `ForEach` instead of returning an empty list. -/
theorem available_nil_reply_panics (l : LuaPlugin) (L : LState) (f : String)
    (hstate : l.state = some L)
    (hfn : l.pluginObj.RawGetString "Available" = .LFunction f)
    (hcall : L.CallByParam (.LFunction f) [.LTableV l.pluginObj, .LTableV (availableContext L)]
      = .ok .LNil) :
    l.Available = .panics := by
  rw [available_eq_decode l L f _ hstate hfn hcall]
  rfl

/-- Instance of `available_nil_reply_panics` at an example reply of the guest. -/
theorem available_nil_reply_panics_witness :
    (examplePlugin (.ok .LNil)).Available = .panics :=
  available_nil_reply_panics (examplePlugin (.ok .LNil))
    { CallByParam := fun _ _ => .ok .LNil, alloc := fun k => "0xc" ++ toString k }
    "0xf1" rfl rfl rfl

/-! ## Helper lemmas: Len and the callback of EnvKeys -/

theorem LTable.len_of_sequence (tb : LTable) (entries : List LValue)
    (h : tb.IsSequence entries) : tb.Len = entries.length := by
  obtain ⟨ha, _, _, hn⟩ := h
  unfold LTable.Len
  rw [ha]
  rcases hrev : entries.reverse with _ | ⟨x, rest⟩
  · have : entries = [] := by simpa using hrev
    simp [this, lenLoop]
  · have hx : x ∈ entries := by
      have : x ∈ entries.reverse := by rw [hrev]; exact List.mem_cons_self _ _
      simpa using this
    have hlen : entries.length = rest.length + 1 := by
      rw [← List.length_reverse, hrev, List.length_cons]
    have hxn := hn x hx
    have hnil : LValue.LNil.isNil = true := rfl
    simp [lenLoop, hxn, hlen, hnil]

theorem LTable.pairs_ne_nil_of_len (tb : LTable) (h : tb.Len ≠ 0) : tb.pairs ≠ [] := by
  obtain ⟨v, hv, hvn⟩ := lenLoop_ne_zero tb.array.reverse .LNil h
  have hv2 : v ∈ tb.array := by simpa using hv
  rw [← List.enum_map_snd tb.array] at hv2
  obtain ⟨iv, hiv, rfl⟩ := List.mem_map.mp hv2
  have hmem : iv ∈ tb.array.enum.filter (fun iv => !iv.2.isNil) := by
    simp [List.mem_filter, hiv, hvn]
  intro hnil
  have hin : (LValue.LNumber (toString (iv.1 + 1)), iv.2) ∈ tb.pairs := by
    unfold LTable.pairs
    exact List.mem_append_left _ (List.mem_append_left _
      (List.mem_map_of_mem (fun iv : Nat × LValue =>
        (LValue.LNumber (toString (iv.1 + 1)), iv.2)) hmem))
  rw [hnil] at hin
  cases hin

theorem envKeysEntry_sticky (k v : LValue) (st : Option String × Slice KV)
    (h : st.1.isSome = true) : (envKeysEntry k v st).1.isSome = true := by
  cases v <;> simp [envKeysEntry, h]

theorem envKeysEntry_bad (k v : LValue) (st : Option String × Slice KV)
    (h : v.isTable = false) : (envKeysEntry k v st).1.isSome = true := by
  cases v <;> simp_all [envKeysEntry, LValue.isTable]

theorem envKeysEntry_len (k v : LValue) (st : Option String × Slice KV) :
    (Slice.elems st.2).length ≤ (Slice.elems (envKeysEntry k v st).2).length := by
  cases v <;> simp [envKeysEntry, Slice.elems_append]

theorem envKeysEntry_first (k v : LValue) (st : Option String × Slice KV) :
    (envKeysEntry k v st).1.isSome = true ∨
      1 ≤ (Slice.elems (envKeysEntry k v st).2).length := by
  cases v <;> simp [envKeysEntry, Slice.elems_append]

theorem forEach_envKeysEntry_nonempty (ps : List (LValue × LValue)) (hps : ps ≠ [])
    (st : Option String × Slice KV) :
    (ps.foldl (fun acc kv => envKeysEntry kv.1 kv.2 acc) st).1.isSome = true ∨
      1 ≤ (Slice.elems (ps.foldl (fun acc kv => envKeysEntry kv.1 kv.2 acc) st).2).length := by
  rcases ps with _ | ⟨p, rest⟩
  · exact absurd rfl hps
  · rw [List.foldl_cons]
    rcases envKeysEntry_first p.1 p.2 st with h | h
    · exact Or.inl (foldl_sticky _ (fun s => s.1.isSome = true)
        (fun s kv hs => envKeysEntry_sticky kv.1 kv.2 s hs) rest _ h)
    · exact Or.inr (foldl_sticky _ (fun s => 1 ≤ (Slice.elems s.2).length)
        (fun s kv hs => le_trans hs (envKeysEntry_len kv.1 kv.2 s)) rest _ h)

theorem envKeysEntry_ok (key value : String) (e : LValue)
    (hk : e.HasStringField "key" key) (hv : e.HasStringField "value" value) :
    ∀ k res, envKeysEntry k e (none, res) =
      (none, Slice.append res { Key := key, Value := value }) := by
  obtain ⟨tb, rfl, hk⟩ := hk
  obtain ⟨tb2, h2, hv⟩ := hv
  cases h2
  intro k res
  simp [envKeysEntry, hk, hv, LValue.toGoString]

theorem forEach_envKeysEntry_ok :
    ∀ (ps : List (LValue × LValue)) (recs : List (String × String)) (res : Slice KV),
      List.Forall₂ (fun (p : LValue × LValue) (r : String × String) =>
        p.2.HasStringField "key" r.1 ∧ p.2.HasStringField "value" r.2) ps recs →
      ∃ out, ps.foldl (fun acc kv => envKeysEntry kv.1 kv.2 acc) (none, res) = (none, out) ∧
        Slice.elems out = Slice.elems res ++ recs.map (fun r => KV.mk r.1 r.2) := by
  intro ps recs res h
  induction h generalizing res with
  | nil => exact ⟨res, rfl, by simp⟩
  | @cons p r ps recs hpr _ ih =>
    obtain ⟨out, hout, helems⟩ := ih (Slice.append res { Key := r.1, Value := r.2 })
    refine ⟨out, ?_, ?_⟩
    · rw [List.foldl_cons, envKeysEntry_ok r.1 r.2 p.2 hpr.1 hpr.2 p.1 res]
      exact hout
    · rw [helems, Slice.elems_append]
      simp

theorem envKeys_eq_decode (l : LuaPlugin) (L : LState) (sdkPackage : Package) (ret : LValue)
    (hstate : l.state = some L)
    (hcall : L.CallByParam (l.pluginObj.RawGetString "EnvKeys")
      [.LTableV l.pluginObj, .LTableV (envKeysContext L sdkPackage)] = .ok ret) :
    l.EnvKeys sdkPackage = envKeysDecode ret := by
  simp only [LuaPlugin.EnvKeys, hstate, hcall]

/-! ## EnvKeys: the claims -/

/-- C4, the code at the failing input: when the guest `EnvKeys` returns `nil`, the
check `table.Type() == lua.LTNil` does not fire on the nil table pointer and
`EnvKeys` panics in `table.Len()` instead of returning the empty-result error,
whatever the package. -/
theorem envKeys_nil_reply_panics (l : LuaPlugin) (L : LState) (sdkPackage : Package)
    (hstate : l.state = some L)
    (hcall : L.CallByParam (l.pluginObj.RawGetString "EnvKeys")
      [.LTableV l.pluginObj, .LTableV (envKeysContext L sdkPackage)] = .ok .LNil) :
    l.EnvKeys sdkPackage = .panics := by
  rw [envKeys_eq_decode l L sdkPackage _ hstate hcall]
  rfl

/-- Instance of `envKeys_nil_reply_panics` at an example reply of the guest. -/
theorem envKeys_nil_reply_panics_witness :
    (examplePlugin (.ok .LNil)).EnvKeys examplePackage = .panics :=
  envKeys_nil_reply_panics (examplePlugin (.ok .LNil))
    { CallByParam := fun _ _ => .ok .LNil, alloc := fun k => "0xc" ++ toString k }
    examplePackage rfl rfl

/-- C5: whenever `EnvKeys` returns a nil error, whatever the guest returned and
whatever the package, the returned list has at least one element. -/
theorem envKeys_success_nonempty (l : LuaPlugin) (sdkPackage : Package) (r : Slice KV)
    (h : l.EnvKeys sdkPackage = .returns r none) : 1 ≤ Slice.len r := by
  unfold LuaPlugin.EnvKeys at h
  rcases hs : l.state with _ | L
  · rw [hs] at h; cases h
  · rw [hs] at h
    simp only at h
    rcases hc : L.CallByParam (l.pluginObj.RawGetString "EnvKeys")
        [.LTableV l.pluginObj, .LTableV (envKeysContext L sdkPackage)] with e | ret
    · rw [hc] at h; cases h
    · rw [hc] at h
      simp only [envKeysDecode, LTable.TypeOfPtr] at h
      rcases ht : ToTable ret with _ | tb
      · rw [ht] at h; simp at h
      · rw [ht] at h
        by_cases hlen : tb.Len = 0
        · simp [hlen] at h
        · simp only [hlen, if_false, reduceCtorEq] at h
          rcases forEach_envKeysEntry_nonempty tb.pairs
            (LTable.pairs_ne_nil_of_len tb hlen) (none, none) with herr | hok
          · obtain ⟨msg, hmsg⟩ := Option.isSome_iff_exists.mp herr
            simp only [LTable.ForEach, hmsg] at h
            cases h
          · rcases hfst : (tb.ForEach envKeysEntry (none, none)).1 with _ | msg
            · simp only [hfst] at h
              injection h with h1 _
              rw [← h1]
              exact hok
            · simp only [hfst] at h
              cases h

/-- Instance of `envKeys_success_nonempty` at an example reply of the guest. -/
theorem envKeys_success_nonempty_witness :
    (examplePlugin (.ok (.LTableV onePathEntry))).EnvKeys examplePackage
        = .returns (some [{ Key := "PATH_EXT", Value := "/opt/x/bin" }]) none ∧
      1 ≤ Slice.len (some [({ Key := "PATH_EXT", Value := "/opt/x/bin" } : KV)]) :=
  ⟨by decide, envKeys_success_nonempty (examplePlugin (.ok (.LTableV onePathEntry)))
    examplePackage _ (by decide)⟩

/-- C6, counterexample: the empty table is a sequence of N = 0 records, and `EnvKeys`
returns the empty-result error for it, not an empty list with a nil error. -/
theorem envKeys_empty_sequence_fails :
    emptyTable.IsSequence [] ∧
    List.Forall₂ (fun (e : LValue) (r : String × String) =>
      e.HasStringField "key" r.1 ∧ e.HasStringField "value" r.2) [] [] ∧
    (examplePlugin (.ok (.LTableV emptyTable))).EnvKeys examplePackage
      = .returns none (some "no environment variables provided") :=
  ⟨⟨rfl, rfl, rfl, by intro e he; cases he⟩, List.Forall₂.nil, by decide⟩

/-- C6, amended: when the guest `EnvKeys` returns a sequence of N ≥ 1 records, each
with string fields `key` and `value`, `EnvKeys` returns no error and exactly N
entries in sequence order, the i-th holding the `key` and `value` of the i-th
record. -/
theorem envKeys_sequence_of_records (l : LuaPlugin) (L : LState) (sdkPackage : Package)
    (tb : LTable) (entries : List LValue) (recs : List (String × String))
    (hstate : l.state = some L)
    (hcall : L.CallByParam (l.pluginObj.RawGetString "EnvKeys")
      [.LTableV l.pluginObj, .LTableV (envKeysContext L sdkPackage)] = .ok (.LTableV tb))
    (hseq : tb.IsSequence entries) (hne : entries ≠ [])
    (hrec : List.Forall₂ (fun (e : LValue) (r : String × String) =>
      e.HasStringField "key" r.1 ∧ e.HasStringField "value" r.2) entries recs) :
    ∃ kvs, l.EnvKeys sdkPackage = .returns kvs none ∧ Slice.len kvs = entries.length ∧
      Slice.elems kvs = recs.map (fun r => KV.mk r.1 r.2) := by
  have hvals := LTable.pairs_of_sequence tb entries hseq
  have hlen : tb.Len ≠ 0 := by
    rw [LTable.len_of_sequence tb entries hseq]
    exact fun h => hne (List.length_eq_zero.mp h)
  have hps : List.Forall₂ (fun (p : LValue × LValue) (r : String × String) =>
      p.2.HasStringField "key" r.1 ∧ p.2.HasStringField "value" r.2) tb.pairs recs := by
    rw [← hvals] at hrec
    exact List.forall₂_map_left_iff.mp hrec
  obtain ⟨out, hfold, helems⟩ := forEach_envKeysEntry_ok tb.pairs recs none hps
  have helems2 : Slice.elems out = recs.map (fun r => KV.mk r.1 r.2) := by
    simpa [Slice.elems] using helems
  refine ⟨out, ?_, ?_, helems2⟩
  · rw [envKeys_eq_decode l L sdkPackage _ hstate hcall]
    simp [envKeysDecode, ToTable, LTable.TypeOfPtr, LTable.ForEach, hfold, hlen]
  · rw [Slice.len, helems2, List.length_map, ← hrec.length_eq]

/-- Instance of `envKeys_sequence_of_records` at an example reply of the guest. -/
theorem envKeys_sequence_of_records_witness :
    ∃ kvs, (examplePlugin (.ok (.LTableV onePathEntry))).EnvKeys examplePackage
        = .returns kvs none ∧ Slice.len kvs = 1 ∧
      Slice.elems kvs = [{ Key := "PATH_EXT", Value := "/opt/x/bin" }] :=
  envKeys_sequence_of_records (examplePlugin (.ok (.LTableV onePathEntry)))
    { CallByParam := fun _ _ => .ok (.LTableV onePathEntry), alloc := fun k => "0xc" ++ toString k }
    examplePackage onePathEntry [record "0x41" [("key", "PATH_EXT"), ("value", "/opt/x/bin")]]
    [("PATH_EXT", "/opt/x/bin")] rfl rfl
    ⟨rfl, rfl, rfl, by intro e he; rw [List.mem_singleton.mp he]; rfl⟩
    (by simp)
    (List.Forall₂.cons ⟨⟨_, rfl, rfl⟩, ⟨_, rfl, rfl⟩⟩ List.Forall₂.nil)

/-- C7, counterexample: for a non-empty table holding a record that lacks `key` and a
record whose `value` is a number, `EnvKeys` returns a nil error and two entries, made
of the texts `nil` and `3`. -/
theorem envKeys_wrong_shape_accepted :
    (record "0x61" [("value", "/opt/x/bin")]).LacksField "key" ∧
    (record "0x61" [("value", "/opt/x/bin")]) ∈ recordsOfWrongShape.values ∧
    (examplePlugin (.ok (.LTableV recordsOfWrongShape))).EnvKeys examplePackage
      = .returns (some [{ Key := "nil", Value := "/opt/x/bin" }, { Key := "N", Value := "3" }])
          none :=
  ⟨⟨_, rfl, rfl⟩, List.mem_cons_self _ _, by decide⟩

/-- C7, amended: when the table the guest `EnvKeys` returns contains an entry that
is not a table, `EnvKeys` returns a non-nil error and a nil list. -/
theorem envKeys_non_table_entry_fails (l : LuaPlugin) (L : LState) (sdkPackage : Package)
    (tb : LTable) (hstate : l.state = some L)
    (hcall : L.CallByParam (l.pluginObj.RawGetString "EnvKeys")
      [.LTableV l.pluginObj, .LTableV (envKeysContext L sdkPackage)] = .ok (.LTableV tb))
    (hbad : ∃ e ∈ tb.values, e.isTable = false) :
    ∃ msg, l.EnvKeys sdkPackage = .returns none (some msg) := by
  rw [envKeys_eq_decode l L sdkPackage _ hstate hcall]
  by_cases hlen : tb.Len = 0
  · exact ⟨noEnvironmentVariables, by simp [envKeysDecode, ToTable, LTable.TypeOfPtr, hlen]⟩
  · have herr : (tb.ForEach envKeysEntry (none, none)).1.isSome = true := by
      unfold LTable.ForEach
      obtain ⟨e, he, hb⟩ := hbad
      obtain ⟨kv, hkv, rfl⟩ := (LTable.mem_values tb e).mp he
      exact foldl_hits _ (fun s => s.1.isSome = true) (fun kv => kv.2.isTable = false)
        (fun s kv hs => envKeysEntry_sticky kv.1 kv.2 s hs)
        (fun s kv hb => envKeysEntry_bad kv.1 kv.2 s hb) tb.pairs _ ⟨kv, hkv, hb⟩
    obtain ⟨msg, hmsg⟩ := Option.isSome_iff_exists.mp herr
    exact ⟨msg, by simp [envKeysDecode, ToTable, LTable.TypeOfPtr, hlen, hmsg]⟩

/-- Instance of `envKeys_non_table_entry_fails` at an example reply of the guest. -/
theorem envKeys_non_table_entry_fails_witness :
    ∃ msg, (examplePlugin (.ok (.LTableV recordThenString))).EnvKeys examplePackage
      = .returns none (some msg) :=
  envKeys_non_table_entry_fails (examplePlugin (.ok (.LTableV recordThenString)))
    { CallByParam := fun _ _ => .ok (.LTableV recordThenString),
      alloc := fun k => "0xc" ++ toString k }
    examplePackage recordThenString rfl rfl
    ⟨.LString "B=2", List.mem_cons_of_mem _ (List.mem_cons_self _ _), rfl⟩

/-! ## Helper lemmas: the callback of PreInstall -/

theorem preInstallItem_sticky (k v : LValue) (st : Option String × Slice Info)
    (h : st.1.isSome = true) : (preInstallItem k v st).1.isSome = true := by
  cases v <;> simp [preInstallItem, h]

theorem preInstallItem_bad (k v : LValue) (st : Option String × Slice Info)
    (h : v.isTable = false) : (preInstallItem k v st).1.isSome = true := by
  cases v <;> simp_all [preInstallItem, LValue.isTable]

theorem preInstallItem_ok (name version url : String) (e : LValue)
    (hn : e.HasStringField "name" name) (hv : e.HasStringField "version" version)
    (hu : e.HasStringField "url" url) :
    ∀ k res, preInstallItem k e (none, res) =
      (none, Slice.append res { Name := name, Version := version, Note := "", Path := url }) := by
  obtain ⟨tb, rfl, hn⟩ := hn
  obtain ⟨tb2, h2, hv⟩ := hv
  obtain ⟨tb3, h3, hu⟩ := hu
  cases h2
  cases h3
  intro k res
  simp [preInstallItem, hn, hv, hu, LValue.toGoString]

theorem forEach_preInstallItem_ok :
    ∀ (ps : List (LValue × LValue)) (items : List (String × String × String))
      (res : Slice Info),
      List.Forall₂ (fun (p : LValue × LValue) (r : String × String × String) =>
        p.2.HasStringField "name" r.1 ∧ p.2.HasStringField "version" r.2.1 ∧
          p.2.HasStringField "url" r.2.2) ps items →
      ∃ out, ps.foldl (fun acc kv => preInstallItem kv.1 kv.2 acc) (none, res) = (none, out) ∧
        Slice.elems out = Slice.elems res ++ items.map (fun r => Info.mk r.1 r.2.1 "" r.2.2) := by
  intro ps items res h
  induction h generalizing res with
  | nil => exact ⟨res, rfl, by simp⟩
  | @cons p r ps items hpr _ ih =>
    obtain ⟨out, hout, helems⟩ := ih (Slice.append res
      { Name := r.1, Version := r.2.1, Note := "", Path := r.2.2 })
    refine ⟨out, ?_, ?_⟩
    · rw [List.foldl_cons, preInstallItem_ok r.1 r.2.1 r.2.2 p.2 hpr.1 hpr.2.1 hpr.2.2 p.1 res]
      exact hout
    · rw [helems, Slice.elems_append]
      simp

theorem preInstall_eq_decode (l : LuaPlugin) (L : LState) (f version : String) (ret : LValue)
    (hstate : l.state = some L)
    (hfn : l.pluginObj.RawGetString "PostInstall" = .LFunction f)
    (hcall : L.CallByParam (.LFunction f)
      [.LTableV l.pluginObj, .LTableV (preInstallContext L version)] = .ok ret) :
    l.PreInstall version = preInstallDecode l.Name ret := by
  simp only [LuaPlugin.PreInstall, hstate, hfn, hcall]

/-! ## PreInstall: the claims -/

/-- C8, the code at the failing input: when the guest function `PreInstall` invokes
returns `nil`, the check `table.Type() == lua.LTNil` does not fire on the nil table
pointer and `PreInstall` panics in `table.RawGetString` instead of returning a nil
package and a nil error, whatever the requested version. -/
theorem preInstall_nil_reply_panics (l : LuaPlugin) (L : LState) (f version : String)
    (hstate : l.state = some L)
    (hfn : l.pluginObj.RawGetString "PostInstall" = .LFunction f)
    (hcall : L.CallByParam (.LFunction f)
      [.LTableV l.pluginObj, .LTableV (preInstallContext L version)] = .ok .LNil) :
    l.PreInstall version = .panics := by
  rw [preInstall_eq_decode l L f version _ hstate hfn hcall]
  rfl

/-- Instance of `preInstall_nil_reply_panics` at an example reply of the guest. -/
theorem preInstall_nil_reply_panics_witness :
    (examplePlugin (.ok .LNil)).PreInstall "18.0.0" = .panics :=
  preInstall_nil_reply_panics (examplePlugin (.ok .LNil))
    { CallByParam := fun _ _ => .ok .LNil, alloc := fun k => "0xc" ++ toString k }
    "0xf2" "18.0.0" rfl rfl rfl

/-- C9: when the guest returns a record with string fields `version` and `url` and
an `additional` that is absent (M = 0) or a sequence of M records with string fields
`name`, `version` and `url`, `PreInstall` returns no error and a package whose `Main`
is the plugin name, `version` and `url`, and whose `Additional` holds exactly the M
infos of the additional records, in sequence order. -/
theorem preInstall_record (l : LuaPlugin) (L : LState) (f version : String) (tb : LTable)
    (v u : String) (items : List (String × String × String))
    (hstate : l.state = some L)
    (hfn : l.pluginObj.RawGetString "PostInstall" = .LFunction f)
    (hcall : L.CallByParam (.LFunction f)
      [.LTableV l.pluginObj, .LTableV (preInstallContext L version)] = .ok (.LTableV tb))
    (hv : (LValue.LTableV tb).HasStringField "version" v)
    (hu : (LValue.LTableV tb).HasStringField "url" u)
    (hadd : ((LValue.LTableV tb).LacksField "additional" ∧ items = []) ∨
      ∃ a entries, (LValue.LTableV tb).HasTableField "additional" a ∧ a.IsSequence entries ∧
        List.Forall₂ (fun (e : LValue) (r : String × String × String) =>
          e.HasStringField "name" r.1 ∧ e.HasStringField "version" r.2.1 ∧
            e.HasStringField "url" r.2.2) entries items) :
    ∃ pkg, l.PreInstall version = .returns (some pkg) none ∧
      pkg.Main = { Name := l.Name, Version := v, Note := "", Path := u } ∧
      Slice.len pkg.Additional = items.length ∧
      Slice.elems pkg.Additional = items.map (fun r => Info.mk r.1 r.2.1 "" r.2.2) := by
  rw [preInstall_eq_decode l L f version _ hstate hfn hcall]
  obtain ⟨tb1, h1, hv⟩ := hv
  obtain ⟨tb2, h2, hu⟩ := hu
  cases h1
  cases h2
  rcases hadd with ⟨⟨tb3, h3, hnil⟩, hitems⟩ | ⟨a, entries, ⟨tb3, h3, ha⟩, hseq, hrec⟩
  · cases h3
    subst hitems
    exact ⟨{ Main := { Name := l.Name, Version := v, Note := "", Path := u }, Additional := none },
      by simp [preInstallDecode, ToTable, LTable.TypeOfPtr, hv, hu, hnil, LValue.toGoString],
      rfl, rfl, rfl⟩
  · cases h3
    by_cases hlen : a.Len = 0
    · have hentries : entries = [] := by
        rw [LTable.len_of_sequence a entries hseq] at hlen
        exact List.length_eq_zero.mp hlen
      subst hentries
      cases hrec
      exact ⟨{ Main := { Name := l.Name, Version := v, Note := "", Path := u },
               Additional := none },
        by simp [preInstallDecode, ToTable, LTable.TypeOfPtr, hv, hu, ha, hlen,
          LValue.toGoString],
        rfl, rfl, rfl⟩
    · have hvals := LTable.pairs_of_sequence a entries hseq
      have hps : List.Forall₂ (fun (p : LValue × LValue) (r : String × String × String) =>
          p.2.HasStringField "name" r.1 ∧ p.2.HasStringField "version" r.2.1 ∧
            p.2.HasStringField "url" r.2.2) a.pairs items := by
        rw [← hvals] at hrec
        exact List.forall₂_map_left_iff.mp hrec
      obtain ⟨out, hfold, helems⟩ := forEach_preInstallItem_ok a.pairs items none hps
      have helems2 : Slice.elems out = items.map (fun r => Info.mk r.1 r.2.1 "" r.2.2) := by
        simpa [Slice.elems] using helems
      refine ⟨{ Main := { Name := l.Name, Version := v, Note := "", Path := u },
                Additional := out }, ?_, rfl, ?_, helems2⟩
      · simp [preInstallDecode, ToTable, LTable.TypeOfPtr, hv, hu, ha, hlen, LTable.ForEach,
          hfold, LValue.toGoString]
      · simp [Slice.len, helems2]

/-- Instance of `preInstall_record` at an example reply of the guest. -/
theorem preInstall_record_witness :
    ∃ pkg, (examplePlugin (.ok (.LTableV nodeWithNpm))).PreInstall "18.0.0"
        = .returns (some pkg) none ∧
      pkg.Main = { Name := "node", Version := "18.0.0", Note := "",
                   Path := "https://x/node.tgz" } ∧
      Slice.len pkg.Additional = 1 ∧
      Slice.elems pkg.Additional =
        [{ Name := "npm", Version := "9.0.0", Note := "", Path := "https://x/npm.tgz" }] :=
  preInstall_record (examplePlugin (.ok (.LTableV nodeWithNpm)))
    { CallByParam := fun _ _ => .ok (.LTableV nodeWithNpm), alloc := fun k => "0xc" ++ toString k }
    "0xf2" "18.0.0" nodeWithNpm "18.0.0" "https://x/node.tgz"
    [("npm", "9.0.0", "https://x/npm.tgz")] rfl rfl rfl ⟨_, rfl, rfl⟩ ⟨_, rfl, rfl⟩
    (Or.inr ⟨.mk "0xa2"
        [record "0xa3" [("name", "npm"), ("version", "9.0.0"), ("url", "https://x/npm.tgz")]]
        [] [],
      [record "0xa3" [("name", "npm"), ("version", "9.0.0"), ("url", "https://x/npm.tgz")]],
      ⟨_, rfl, rfl⟩,
      ⟨rfl, rfl, rfl, by intro e he; rw [List.mem_singleton.mp he]; rfl⟩,
      List.Forall₂.cons ⟨⟨_, rfl, rfl⟩, ⟨_, rfl, rfl⟩, ⟨_, rfl, rfl⟩⟩ List.Forall₂.nil⟩)

/-- C10, counterexample: a record lacking `version` and `url`, whose `additional`
holds a record lacking `name`, `version` and `url`, is decoded to a package made of
the text `nil` with a nil error; and a record whose `additional` holds a number under
a string key is decoded to a package with a nil error as well. -/
theorem preInstall_wrong_shape_accepted :
    (LValue.LTableV recordLackingFields).LacksField "version" ∧
    (LValue.LTableV recordLackingFields).LacksField "url" ∧
    (examplePlugin (.ok (.LTableV recordLackingFields))).PreInstall "18.0.0"
      = .returns (some (Package.mk { Name := "node", Version := "nil", Note := "", Path := "nil" }
          (some [{ Name := "nil", Version := "nil", Note := "", Path := "nil" }]))) none ∧
    (LValue.LTableV recordWithHashOnlyAdditional).HasTableField "additional"
      hashOnlyAdditional ∧
    LValue.LNumber "9" ∈ hashOnlyAdditional.values ∧
    (examplePlugin (.ok (.LTableV recordWithHashOnlyAdditional))).PreInstall "18.0.0"
      = .returns (some (Package.mk
          { Name := "node", Version := "18.0.0", Note := "", Path := "https://x/node.tgz" }
          none)) none :=
  ⟨⟨_, rfl, rfl⟩, ⟨_, rfl, rfl⟩, by decide, ⟨_, rfl, rfl⟩, List.mem_singleton.mpr rfl,
    by decide⟩

/-- C10, amended: when the guest returns a record whose `additional` mapping has a
non-zero sequence length and holds an entry that is not a table, `PreInstall` returns
a non-nil error and a nil package. -/
theorem preInstall_non_table_additional_fails (l : LuaPlugin) (L : LState)
    (f version : String) (tb a : LTable)
    (hstate : l.state = some L)
    (hfn : l.pluginObj.RawGetString "PostInstall" = .LFunction f)
    (hcall : L.CallByParam (.LFunction f)
      [.LTableV l.pluginObj, .LTableV (preInstallContext L version)] = .ok (.LTableV tb))
    (hadd : (LValue.LTableV tb).HasTableField "additional" a) (hlen : a.Len ≠ 0)
    (hbad : ∃ x ∈ a.values, x.isTable = false) :
    ∃ msg, l.PreInstall version = .returns none (some msg) := by
  rw [preInstall_eq_decode l L f version _ hstate hfn hcall]
  obtain ⟨tb1, h1, ha⟩ := hadd
  cases h1
  have herr : (a.ForEach preInstallItem (none, none)).1.isSome = true := by
    unfold LTable.ForEach
    obtain ⟨x, hx, hb⟩ := hbad
    obtain ⟨kv, hkv, rfl⟩ := (LTable.mem_values a x).mp hx
    exact foldl_hits _ (fun s => s.1.isSome = true) (fun kv => kv.2.isTable = false)
      (fun s kv hs => preInstallItem_sticky kv.1 kv.2 s hs)
      (fun s kv hb => preInstallItem_bad kv.1 kv.2 s hb) a.pairs _ ⟨kv, hkv, hb⟩
  obtain ⟨msg, hmsg⟩ := Option.isSome_iff_exists.mp herr
  exact ⟨msg, by simp [preInstallDecode, ToTable, LTable.TypeOfPtr, ha, hlen, hmsg]⟩

/-- Instance of `preInstall_non_table_additional_fails` at an example reply of the guest. -/
theorem preInstall_non_table_additional_fails_witness :
    ∃ msg, (examplePlugin (.ok (.LTableV additionalWithBoolean))).PreInstall "18.0.0"
      = .returns none (some msg) :=
  preInstall_non_table_additional_fails (examplePlugin (.ok (.LTableV additionalWithBoolean)))
    { CallByParam := fun _ _ => .ok (.LTableV additionalWithBoolean),
      alloc := fun k => "0xc" ++ toString k }
    "0xf2" "18.0.0" additionalWithBoolean
    (.mk "0xb2"
      [record "0xb3" [("name", "npm"), ("version", "9.0.0"), ("url", "https://x/npm.tgz")],
        .LBool true] [] [])
    rfl rfl rfl ⟨_, rfl, rfl⟩ (by decide)
    ⟨.LBool true, List.mem_cons_of_mem _ (List.mem_cons_self _ _), rfl⟩

/-! ## Helper lemmas: raw get after raw set, globals -/

theorem strdictSet_lookup_ne (k k2 : String) (v : LValue) (h : k ≠ k2) :
    ∀ xs : List (String × LValue), (strdictSet k v xs).lookup k2 = xs.lookup k2 := by
  intro xs
  induction xs with
  | nil =>
    have : (k2 == k) = false := by simpa using fun h2 : k2 = k => h h2.symm
    simp [strdictSet, List.lookup, this]
  | cons p rest ih =>
    obtain ⟨k1, v1⟩ := p
    by_cases h1 : k1 = k
    · subst h1
      have : (k2 == k1) = false := by simpa using fun h2 : k2 = k1 => h h2.symm
      simp [strdictSet, List.lookup, this]
    · by_cases h2 : k2 = k1
      · subst h2
        simp [strdictSet, h1, List.lookup]
      · have : (k2 == k1) = false := by simpa using h2
        simp [strdictSet, h1, List.lookup, this, ih]

theorem strdictSet_lookup_self (k : String) (v : LValue) :
    ∀ xs : List (String × LValue), (strdictSet k v xs).lookup k = some v := by
  intro xs
  induction xs with
  | nil => simp [strdictSet, List.lookup]
  | cons p rest ih =>
    obtain ⟨k1, v1⟩ := p
    by_cases h1 : k1 = k
    · subst h1
      simp [strdictSet, List.lookup]
    · have : (k == k1) = false := by simpa using fun h2 : k = k1 => h1 h2.symm
      simp [strdictSet, h1, List.lookup, this, ih]

theorem LTable.RawGetString_RawSetString_ne (tb : LTable) (k k2 : String) (v : LValue)
    (hv : v.isNil = false) (h : k ≠ k2) :
    (tb.RawSetString k v).RawGetString k2 = tb.RawGetString k2 := by
  simp only [LTable.RawSetString, hv, LTable.RawGetString, LTable.strdict, Bool.false_eq_true,
    if_false, strdictSet_lookup_ne k k2 v h]

theorem LTable.RawGetString_RawSetString_self (tb : LTable) (k : String) (v : LValue)
    (hv : v.isNil = false) : (tb.RawSetString k v).RawGetString k = v := by
  simp only [LTable.RawSetString, hv, LTable.RawGetString, LTable.strdict, Bool.false_eq_true,
    if_false, strdictSet_lookup_self k v]

theorem LTable.get_set_string_ne (tb : LTable) (k k2 s : String) (h : k ≠ k2) :
    (tb.RawSetString k (.LString s)).RawGetString k2 = tb.RawGetString k2 :=
  LTable.RawGetString_RawSetString_ne tb k k2 (.LString s) rfl h

theorem LTable.get_set_string_self (tb : LTable) (k s : String) :
    (tb.RawSetString k (.LString s)).RawGetString k = .LString s :=
  LTable.RawGetString_RawSetString_self tb k (.LString s) rfl

theorem LTable.get_set_table_ne (tb : LTable) (k k2 : String) (t : LTable) (h : k ≠ k2) :
    (tb.RawSetString k (.LTableV t)).RawGetString k2 = tb.RawGetString k2 :=
  LTable.RawGetString_RawSetString_ne tb k k2 (.LTableV t) rfl h

theorem LTable.get_set_table_self (tb : LTable) (k : String) (t : LTable) :
    (tb.RawSetString k (.LTableV t)).RawGetString k = .LTableV t :=
  LTable.RawGetString_RawSetString_self tb k (.LTableV t) rfl

theorem LTable.present_of_isNil (tb : LTable) (key : String)
    (h : (tb.RawGetString key).isNil = false) : tb.Present key := by
  intro hnil
  rw [hnil] at h
  cases h

theorem LTable.present_iff (tb : LTable) (key : String) :
    tb.Present key ↔ (tb.RawGetString key).isNil = false := by
  unfold LTable.Present
  cases tb.RawGetString key <;> simp [LValue.isNil]

theorem LValue.isNil_iff (v : LValue) : v.isNil = true ↔ v = .LNil := by
  cases v <;> simp [LValue.isNil]

theorem LValue.type_eq_nil_iff (v : LValue) : v.Type = .LTNil ↔ v = .LNil := by
  cases v <;> simp [LValue.Type]

theorem LState.getGlobal_plugin_after_set (L : LState) (osType archType : String) :
    ((L.SetGlobal OsType (.LString osType)).SetGlobal ArchType (.LString archType)).GetGlobal
      LuaPluginObjKey = L.GetGlobal LuaPluginObjKey := by
  simp only [LState.GetGlobal, LState.SetGlobal]
  rw [LTable.RawGetString_RawSetString_ne _ ArchType LuaPluginObjKey (.LString archType) rfl
      (by decide),
    LTable.RawGetString_RawSetString_ne _ OsType LuaPluginObjKey (.LString osType) rfl
      (by decide)]

theorem LuaPlugin.checkValid_congr (l l2 : LuaPlugin) (L L2 : LState)
    (h1 : l.state = some L) (h2 : l2.state = some L2) (hobj : l.pluginObj = l2.pluginObj) :
    l.checkValid = l2.checkValid := by
  simp only [LuaPlugin.checkValid, h1, h2, hobj]

theorem readMetadata_state (PLUGIN : LTable) (source : LuaPlugin) :
    (readMetadata PLUGIN source).state = source.state ∧
      (readMetadata PLUGIN source).pluginObj = source.pluginObj := by
  unfold readMetadata
  constructor <;> (repeat' split) <;> rfl

/-- Runtime `NewLuaPlugin` works on after the source has run: the two platform globals
are set. -/
theorem newLuaPlugin_absent (interp : Interpreter) (content osType archType : String)
    (L1 : LState) (hrun : interp.DoString interp.NewState content = (L1, none))
    (hplugin : L1.GetGlobal LuaPluginObjKey = .LNil) :
    NewLuaPlugin interp content osType archType =
      { result := .returns none (some "plugin object not found"),
        env := (L1.SetGlobal OsType (.LString osType)).SetGlobal ArchType
          (.LString archType) } := by
  unfold NewLuaPlugin
  simp only [hrun, LState.getGlobal_plugin_after_set, hplugin, LValue.Type, if_true]

theorem newLuaPlugin_table (interp : Interpreter) (content osType archType : String)
    (L1 : LState) (PLUGIN : LTable)
    (hrun : interp.DoString interp.NewState content = (L1, none))
    (hplugin : L1.GetGlobal LuaPluginObjKey = .LTableV PLUGIN) :
    NewLuaPlugin interp content osType archType =
      match (LuaPlugin.mk (some ((L1.SetGlobal OsType (.LString osType)).SetGlobal ArchType
          (.LString archType))) PLUGIN "" "" "" "").checkValid with
      | some err =>
        { result := .returns none (some err),
          env := (L1.SetGlobal OsType (.LString osType)).SetGlobal ArchType
            (.LString archType) }
      | none =>
        { result := .returns (some (readMetadata PLUGIN
            (LuaPlugin.mk (some ((L1.SetGlobal OsType (.LString osType)).SetGlobal ArchType
              (.LString archType))) PLUGIN "" "" "" ""))) none,
          env := (L1.SetGlobal OsType (.LString osType)).SetGlobal ArchType
            (.LString archType) } := by
  unfold NewLuaPlugin
  simp only [hrun, LState.getGlobal_plugin_after_set, hplugin, LValue.Type, reduceCtorEq,
    if_false]

theorem newLuaPlugin_other (interp : Interpreter) (content osType archType : String)
    (L1 : LState) (v : LValue)
    (hrun : interp.DoString interp.NewState content = (L1, none))
    (hplugin : L1.GetGlobal LuaPluginObjKey = v)
    (hnil : v.isNil = false) (htable : v.isTable = false) :
    NewLuaPlugin interp content osType archType =
      { result := .panics,
        env := (L1.SetGlobal OsType (.LString osType)).SetGlobal ArchType
          (.LString archType) } := by
  unfold NewLuaPlugin
  simp only [hrun, LState.getGlobal_plugin_after_set, hplugin]
  cases v <;> simp_all [LValue.Type, LValue.isNil, LValue.isTable]

/-! ## checkValid and NewLuaPlugin: the claims -/

/-- C11: on a plugin that has a runtime, as `NewLuaPlugin` builds it, `checkValid`
returns nil exactly when `Available`, `PostInstall` and `EnvKeys` are all present on
the plugin object; otherwise it returns the error naming the first missing one in the
order Available, PostInstall, EnvKeys; and `NewLuaPlugin`, on a source that leaves this
object in the global `PLUGIN`, returns that error with a nil plugin. -/
theorem checkValid_first_missing (l : LuaPlugin) (L : LState) (hstate : l.state = some L) :
    (l.checkValid = none ↔ l.pluginObj.Present "Available" ∧
      l.pluginObj.Present "PostInstall" ∧ l.pluginObj.Present "EnvKeys") ∧
    (¬ l.pluginObj.Present "Available" →
      l.checkValid = some "[Available] function not found") ∧
    (l.pluginObj.Present "Available" → ¬ l.pluginObj.Present "PostInstall" →
      l.checkValid = some "[PostInstall] function not found") ∧
    (l.pluginObj.Present "Available" → l.pluginObj.Present "PostInstall" →
      ¬ l.pluginObj.Present "EnvKeys" →
      l.checkValid = some "[EnvKeys] function not found") ∧
    ∀ (interp : Interpreter) (content osType archType : String) (L1 : LState) (err : String),
      interp.DoString interp.NewState content = (L1, none) →
      L1.GetGlobal LuaPluginObjKey = .LTableV l.pluginObj →
      l.checkValid = some err →
      (NewLuaPlugin interp content osType archType).result = .returns none (some err) := by
  have hfour : (l.checkValid = none ↔ l.pluginObj.Present "Available" ∧
        l.pluginObj.Present "PostInstall" ∧ l.pluginObj.Present "EnvKeys") ∧
      (¬ l.pluginObj.Present "Available" →
        l.checkValid = some "[Available] function not found") ∧
      (l.pluginObj.Present "Available" → ¬ l.pluginObj.Present "PostInstall" →
        l.checkValid = some "[PostInstall] function not found") ∧
      (l.pluginObj.Present "Available" → l.pluginObj.Present "PostInstall" →
        ¬ l.pluginObj.Present "EnvKeys" →
        l.checkValid = some "[EnvKeys] function not found") := by
    simp only [LTable.present_iff, LuaPlugin.checkValid, hstate]
    cases (l.pluginObj.RawGetString "Available").isNil <;>
      cases (l.pluginObj.RawGetString "PostInstall").isNil <;>
      cases (l.pluginObj.RawGetString "EnvKeys").isNil <;> simp
  refine ⟨hfour.1, hfour.2.1, hfour.2.2.1, hfour.2.2.2, ?_⟩
  · intro interp content osType archType L1 err hrun hplugin herr
    rw [newLuaPlugin_table interp content osType archType L1 _ hrun hplugin]
    have hcv := LuaPlugin.checkValid_congr
      (LuaPlugin.mk (some ((L1.SetGlobal OsType (.LString osType)).SetGlobal ArchType
        (.LString archType))) l.pluginObj "" "" "" "")
      l _ L rfl hstate rfl
    simp only [hcv, herr]

/-- Instance of `checkValid_first_missing` at a plugin object lacking only `EnvKeys`. -/
theorem checkValid_first_missing_witness :
    (NewLuaPlugin (exampleInterpreter globalsLackingEnvKeys none) "PLUGIN = \x7b\x7d" "linux"
      "amd64").result = .returns none (some "[EnvKeys] function not found") :=
  (checkValid_first_missing
    { state := some (exampleInterpreter globalsLackingEnvKeys none).NewState,
      pluginObj := .mk "0xd1" []
        [("Available", .LFunction "0xf1"), ("PostInstall", .LFunction "0xf2")] [],
      Name := "", Author := "", Version := "", UpdateUrl := "" }
    (exampleInterpreter globalsLackingEnvKeys none).NewState rfl).2.2.2.2
    (exampleInterpreter globalsLackingEnvKeys none) "PLUGIN = \x7b\x7d" "linux" "amd64"
    { (exampleInterpreter globalsLackingEnvKeys none).NewState with
      globals := globalsLackingEnvKeys }
    "[EnvKeys] function not found" rfl rfl rfl

theorem LuaPlugin.checkValid_none_of_present (l : LuaPlugin) (L : LState)
    (hstate : l.state = some L) (hA : l.pluginObj.Present "Available")
    (hP : l.pluginObj.Present "PostInstall") (hE : l.pluginObj.Present "EnvKeys") :
    l.checkValid = none := by
  rw [LTable.present_iff] at hA hP hE
  simp [LuaPlugin.checkValid, hstate, hA, hP, hE]

theorem LuaPlugin.present_of_checkValid_none (l : LuaPlugin) (h : l.checkValid = none) :
    l.pluginObj.Present "Available" ∧ l.pluginObj.Present "PostInstall" ∧
      l.pluginObj.Present "EnvKeys" := by
  simp only [LTable.present_iff]
  rcases hs : l.state with _ | L
  · simp [LuaPlugin.checkValid, hs] at h
  · simp only [LuaPlugin.checkValid, hs] at h
    revert h
    cases (l.pluginObj.RawGetString "Available").isNil <;>
      cases (l.pluginObj.RawGetString "PostInstall").isNil <;>
      cases (l.pluginObj.RawGetString "EnvKeys").isNil <;> simp

/-- C12, the code at the failing input: when the source leaves a `PLUGIN` table whose
`Available` is bound to a value that is neither nil nor a function, with `PostInstall`
and `EnvKeys` present, `checkValid` accepts it, `NewLuaPlugin` returns a plugin and a
nil error, and `Available` on that plugin panics in its function type assertion. -/
theorem newLuaPlugin_accepts_non_function (interp : Interpreter)
    (content osType archType : String) (L1 : LState) (PLUGIN : LTable) (v : LValue)
    (hrun : interp.DoString interp.NewState content = (L1, none))
    (hplugin : L1.GetGlobal LuaPluginObjKey = .LTableV PLUGIN)
    (hA : PLUGIN.RawGetString "Available" = v) (hnil : v.isNil = false)
    (hfn : v.isFunction = false)
    (hP : PLUGIN.Present "PostInstall") (hE : PLUGIN.Present "EnvKeys") :
    ∃ l, (NewLuaPlugin interp content osType archType).result = .returns (some l) none ∧
      l.Available = .panics := by
  rw [newLuaPlugin_table interp content osType archType L1 PLUGIN hrun hplugin]
  have hAp : PLUGIN.Present "Available" := by
    apply LTable.present_of_isNil
    rw [hA]; exact hnil
  rw [LuaPlugin.checkValid_none_of_present _ _ rfl hAp hP hE]
  refine ⟨_, rfl, ?_⟩
  obtain ⟨hs, ho⟩ := readMetadata_state PLUGIN
    (LuaPlugin.mk (some ((L1.SetGlobal OsType (.LString osType)).SetGlobal ArchType
      (.LString archType))) PLUGIN "" "" "" "")
  simp only [LuaPlugin.Available, hs, ho, hA]
  cases v <;> simp_all [LValue.isNil, LValue.isFunction]

/-- Instance of `newLuaPlugin_accepts_non_function` at a source binding
`PLUGIN.Available` to the number 5. -/
theorem newLuaPlugin_accepts_non_function_witness :
    ∃ l, (NewLuaPlugin (exampleInterpreter globalsWithNumberAvailable none)
        "PLUGIN = \x7bAvailable = 5\x7d" "linux" "amd64").result = .returns (some l) none ∧
      l.Available = .panics :=
  newLuaPlugin_accepts_non_function (exampleInterpreter globalsWithNumberAvailable none)
    "PLUGIN = \x7bAvailable = 5\x7d" "linux" "amd64"
    { (exampleInterpreter globalsWithNumberAvailable none).NewState with
      globals := globalsWithNumberAvailable }
    (.mk "0xd4" [] [("Available", .LNumber "5"), ("PostInstall", .LFunction "0xf2"),
      ("EnvKeys", .LFunction "0xf3")] [])
    (.LNumber "5") rfl rfl rfl rfl rfl
    (LTable.present_of_isNil _ _ rfl) (LTable.present_of_isNil _ _ rfl)

/-- C13, the code on the global `PLUGIN` after the source has run: when it is absent,
`NewLuaPlugin` returns the error `plugin object not found` and a nil plugin; when it is
bound to a value that is not a table, the unchecked assertion `pluginOjb.(*lua.LTable)`
panics instead. -/
theorem newLuaPlugin_plugin_global (interp : Interpreter) (content osType archType : String)
    (L1 : LState) (v : LValue)
    (hrun : interp.DoString interp.NewState content = (L1, none))
    (hplugin : L1.GetGlobal LuaPluginObjKey = v) :
    (v = .LNil → (NewLuaPlugin interp content osType archType).result =
      .returns none (some "plugin object not found")) ∧
    (v.isNil = false → v.isTable = false →
      (NewLuaPlugin interp content osType archType).result = .panics) := by
  constructor
  · intro hv
    rw [newLuaPlugin_absent interp content osType archType L1 hrun (hplugin.trans hv)]
  · intro hnil htable
    rw [newLuaPlugin_other interp content osType archType L1 v hrun hplugin hnil htable]

/-- Instance of `newLuaPlugin_plugin_global` at a source binding `PLUGIN` to 42. -/
theorem newLuaPlugin_plugin_global_witness :
    (NewLuaPlugin (exampleInterpreter globalsWithNumberPlugin none) "PLUGIN = 42" "linux"
      "amd64").result = .panics :=
  (newLuaPlugin_plugin_global (exampleInterpreter globalsWithNumberPlugin none) "PLUGIN = 42"
    "linux" "amd64"
    { (exampleInterpreter globalsWithNumberPlugin none).NewState with
      globals := globalsWithNumberPlugin }
    (.LNumber "42") rfl rfl).2 rfl rfl

theorem newLuaPlugin_env_closed (interp : Interpreter) (content osType archType : String) :
    (NewLuaPlugin interp content osType archType).env.closed
      = (interp.DoString interp.NewState content).1.closed := by
  unfold NewLuaPlugin
  rcases hd : interp.DoString interp.NewState content with ⟨L1, e⟩
  simp only [hd]
  rcases e with _ | e
  · simp only
    split
    · rfl
    · split
      · split <;> rfl
      · rfl
  · rfl

/-- C14, counterexample: on each of the three failure paths (the source cannot be
executed, the plugin object is not found, a capability is missing) `NewLuaPlugin`
returns its error while the guest environment it created is not closed. -/
theorem newLuaPlugin_failure_leaves_open :
    ((NewLuaPlugin (exampleInterpreter noGlobals (some "syntax error")) "PLUGIN = \x7b" "linux"
        "amd64").result = .returns none (some "content cannot be executed") ∧
      (NewLuaPlugin (exampleInterpreter noGlobals (some "syntax error")) "PLUGIN = \x7b" "linux"
        "amd64").env.closed = false) ∧
    ((NewLuaPlugin (exampleInterpreter noGlobals none) "" "linux" "amd64").result
        = .returns none (some "plugin object not found") ∧
      (NewLuaPlugin (exampleInterpreter noGlobals none) "" "linux" "amd64").env.closed
        = false) ∧
    ((NewLuaPlugin (exampleInterpreter globalsLackingEnvKeys none) "PLUGIN = \x7b\x7d" "linux"
        "amd64").result = .returns none (some "[EnvKeys] function not found") ∧
      (NewLuaPlugin (exampleInterpreter globalsLackingEnvKeys none) "PLUGIN = \x7b\x7d" "linux"
        "amd64").env.closed = false) :=
  ⟨⟨rfl, rfl⟩, ⟨rfl, rfl⟩, ⟨rfl, rfl⟩⟩

/-- C14, amended: with an interpreter whose fresh runtime is open and whose `DoString`
does not close the runtime, whenever `NewLuaPlugin` returns an error the guest
environment it created at its start is still open: no failure path closes it. -/
theorem newLuaPlugin_failure_not_closed (interp : Interpreter)
    (content osType archType err : String)
    (hopen : interp.NewState.closed = false)
    (hrun : ∀ L c, (interp.DoString L c).1.closed = L.closed)
    (_hfail : (NewLuaPlugin interp content osType archType).result
      = .returns none (some err)) :
    (NewLuaPlugin interp content osType archType).env.closed = false := by
  rw [newLuaPlugin_env_closed, hrun, hopen]

/-- Instance of `newLuaPlugin_failure_not_closed` at a source that cannot be executed. -/
theorem newLuaPlugin_failure_not_closed_witness :
    (NewLuaPlugin (exampleInterpreter noGlobals (some "syntax error")) "PLUGIN = \x7b" "linux"
      "amd64").env.closed = false :=
  newLuaPlugin_failure_not_closed (exampleInterpreter noGlobals (some "syntax error"))
    "PLUGIN = \x7b" "linux" "amd64" "content cannot be executed" rfl (fun _ _ => rfl) rfl

/-! ## Helper lemmas: what a successful decoding holds -/

theorem Slice.mem_elems_append {α : Type} (s : Slice α) (x y : α)
    (h : y ∈ Slice.elems (Slice.append s x)) : y ∈ Slice.elems s ∨ y = x := by
  rw [Slice.elems_append] at h
  rcases List.mem_append.mp h with h | h
  · exact Or.inl h
  · exact Or.inr (List.mem_singleton.mp h)

theorem forEach_availableItem_named (a : LTable) (e : Option String) :
    ∀ info ∈ Slice.elems (a.ForEach availableItem (e, none)).2, NamedIn a info := by
  unfold LTable.ForEach
  refine foldl_preserved _ (fun s => ∀ info ∈ Slice.elems s.2, NamedIn a info) a.pairs
    (e, none) ?_ ?_
  · intro t kv hkv ht info hinfo
    rcases hv : kv.2 with _ | _ | _ | _ | _ | _ | _ | _ | item
    all_goals simp only [availableItem, hv] at hinfo
    all_goals first
      | exact ht info hinfo
      | (rcases Slice.mem_elems_append _ _ _ hinfo with h | h
         · exact ht info h
         · exact ⟨item, hv ▸ LTable.mem_values_of_mem_pairs a kv hkv, by rw [h]⟩)
  · intro info hinfo
    cases hinfo

theorem forEach_preInstallItem_named (a : LTable) (e : Option String) :
    ∀ info ∈ Slice.elems (a.ForEach preInstallItem (e, none)).2, NamedIn a info := by
  unfold LTable.ForEach
  refine foldl_preserved _ (fun s => ∀ info ∈ Slice.elems s.2, NamedIn a info) a.pairs
    (e, none) ?_ ?_
  · intro t kv hkv ht info hinfo
    rcases hv : kv.2 with _ | _ | _ | _ | _ | _ | _ | _ | item
    all_goals simp only [preInstallItem, hv] at hinfo
    all_goals first
      | exact ht info hinfo
      | (rcases Slice.mem_elems_append _ _ _ hinfo with h | h
         · exact ht info h
         · exact ⟨item, hv ▸ LTable.mem_values_of_mem_pairs a kv hkv, by rw [h]⟩)
  · intro info hinfo
    cases hinfo

theorem availableEntry_append (name : String) (k : LValue) (kvTable : LTable)
    (st : Option String × Slice Package) :
    ∃ pkg, (availableEntry name k (.LTableV kvTable) st).2 = Slice.append st.2 pkg ∧
      DecodedEntry name (.LTableV kvTable) pkg := by
  rcases hadd : kvTable.RawGetString "additional" with _ | _ | _ | _ | _ | _ | _ | _ | a
  case LTableV =>
    by_cases hlen : a.Len = 0
    · refine ⟨_, by simp only [availableEntry, hadd, hlen]; rfl, kvTable, rfl, rfl, ?_⟩
      intro info hinfo
      simp [Slice.elems] at hinfo
    · refine ⟨_, by simp only [availableEntry, hadd, hlen]; rfl, kvTable, rfl, rfl, ?_⟩
      intro info hinfo
      rw [if_pos hlen] at hinfo
      exact ⟨a, hadd, forEach_availableItem_named a st.1 info hinfo⟩
  all_goals
    refine ⟨_, by simp only [availableEntry, hadd]; rfl, kvTable, rfl, rfl, ?_⟩
    intro info hinfo
    simp [Slice.elems] at hinfo

theorem forEach_availableEntry_structure (name : String) :
    ∀ (ps : List (LValue × LValue)) (st : Option String × Slice Package),
      (ps.foldl (fun acc kv => availableEntry name kv.1 kv.2 acc) st).1 = none →
      ∃ news, Slice.elems (ps.foldl (fun acc kv => availableEntry name kv.1 kv.2 acc) st).2
          = Slice.elems st.2 ++ news ∧
        List.Forall₂ (fun (kv : LValue × LValue) pkg => DecodedEntry name kv.2 pkg) ps news := by
  intro ps
  induction ps with
  | nil => intro st _; exact ⟨[], by simp, List.Forall₂.nil⟩
  | cons p rest ih =>
    intro st hnone
    rw [List.foldl_cons] at hnone ⊢
    obtain ⟨news, helems, hall⟩ := ih _ hnone
    by_cases htab : p.2.isTable = true
    · obtain ⟨kvTable, hkv⟩ := (LValue.isTable_iff p.2).mp htab
      obtain ⟨pkg, happ, hdec⟩ := availableEntry_append name p.1 kvTable st
      rw [← hkv] at happ hdec
      refine ⟨pkg :: news, ?_, List.Forall₂.cons hdec hall⟩
      rw [helems, happ, Slice.elems_append]
      simp
    · exfalso
      have hbad := availableEntry_bad_value name p.1 p.2 st (by simpa using htab)
      have hsticky := foldl_sticky (fun acc (kv : LValue × LValue) =>
          availableEntry name kv.1 kv.2 acc) (fun s => s.1.isSome = true)
        (fun s kv hs => availableEntry_sticky name kv.1 kv.2 s hs) rest _ hbad
      have hsticky2 : (rest.foldl (fun acc (kv : LValue × LValue) =>
          availableEntry name kv.1 kv.2 acc) (availableEntry name p.1 p.2 st)).1.isSome
          = true := hsticky
      rw [hnone] at hsticky2
      cases hsticky2

theorem available_success_structure (l : LuaPlugin) (L : LState) (f : String) (tb : LTable)
    (pkgs : Slice Package) (hstate : l.state = some L)
    (hfn : l.pluginObj.RawGetString "Available" = .LFunction f)
    (hcall : L.CallByParam (.LFunction f) [.LTableV l.pluginObj, .LTableV (availableContext L)]
      = .ok (.LTableV tb))
    (hok : l.Available = .returns pkgs none) :
    List.Forall₂ (DecodedEntry l.Name) tb.values (Slice.elems pkgs) := by
  rw [available_eq_decode l L f _ hstate hfn hcall] at hok
  simp only [availableDecode, ToTable, LTable.TypeOfPtr, reduceCtorEq, if_false,
    LTable.ForEach] at hok
  rcases herr : (tb.pairs.foldl (fun acc kv => availableEntry l.Name kv.1 kv.2 acc)
      (none, none)).1 with _ | msg
  · obtain ⟨news, helems, hall⟩ := forEach_availableEntry_structure l.Name tb.pairs _ herr
    simp only [herr] at hok
    injection hok with h1 _
    rw [← h1, helems]
    simp only [Slice.elems, List.nil_append, LTable.values]
    exact List.forall₂_map_left_iff.mpr hall
  · simp only [herr] at hok
    cases hok

theorem preInstall_success_structure (l : LuaPlugin) (L : LState) (f version : String)
    (tb : LTable) (pkg : Package) (hstate : l.state = some L)
    (hfn : l.pluginObj.RawGetString "PostInstall" = .LFunction f)
    (hcall : L.CallByParam (.LFunction f)
      [.LTableV l.pluginObj, .LTableV (preInstallContext L version)] = .ok (.LTableV tb))
    (hok : l.PreInstall version = .returns (some pkg) none) :
    AdditionalNamedIn tb pkg := by
  rw [preInstall_eq_decode l L f version _ hstate hfn hcall] at hok
  simp only [preInstallDecode, ToTable, LTable.TypeOfPtr, reduceCtorEq, if_false] at hok
  rcases hadd : tb.RawGetString "additional" with _ | _ | _ | _ | _ | _ | _ | _ | a
  case LTableV =>
    simp only [hadd] at hok
    by_cases hlen : a.Len = 0
    · simp only [hlen, ne_eq, not_true_eq_false, if_false] at hok
      injection hok with h1 _
      injection h1 with h1
      intro info hinfo
      rw [← h1] at hinfo
      simp [Slice.elems] at hinfo
    · simp only [hlen, ne_eq, not_false_eq_true, if_true] at hok
      rcases herr : (a.ForEach preInstallItem (none, none)).1 with _ | msg
      · simp only [herr] at hok
        injection hok with h1 _
        injection h1 with h1
        intro info hinfo
        rw [← h1] at hinfo
        exact ⟨a, hadd, forEach_preInstallItem_named a none info hinfo⟩
      · simp only [herr] at hok
        cases hok
  all_goals
    simp only [hadd] at hok
    injection hok with h1 _
    injection h1 with h1
    intro info hinfo
    rw [← h1] at hinfo
    simp [Slice.elems] at hinfo

/-! ## Available and PreInstall: notes and names -/

/-- C15, counterexample: the entry `{version="1.2.3"}` has a `version` and no `note`,
and the package `Available` returns for it has the note `nil`, not the empty string. -/
theorem available_missing_note_is_nil_text :
    (record "0xe1" [("version", "1.2.3")]).HasStringField "version" "1.2.3" ∧
    (record "0xe1" [("version", "1.2.3")]).LacksField "note" ∧
    (examplePlugin (.ok (.LTableV entryWithoutNote))).Available =
      .returns (some [Package.mk
        { Name := "node", Version := "1.2.3", Note := "nil", Path := "" } none]) none :=
  ⟨⟨_, rfl, rfl⟩, ⟨_, rfl, rfl⟩, by decide⟩

/-- C15, amended: whenever `Available` returns without error, the packages match the
entries of the returned table one to one and in order, and the package of every entry
without a `note` field has `Main.Note` equal to the text `nil`. -/
theorem available_missing_note (l : LuaPlugin) (L : LState) (f : String) (tb : LTable)
    (pkgs : Slice Package) (hstate : l.state = some L)
    (hfn : l.pluginObj.RawGetString "Available" = .LFunction f)
    (hcall : L.CallByParam (.LFunction f) [.LTableV l.pluginObj, .LTableV (availableContext L)]
      = .ok (.LTableV tb))
    (hok : l.Available = .returns pkgs none) :
    List.Forall₂ (fun (e : LValue) (pkg : Package) =>
      e.LacksField "note" → pkg.Main.Note = "nil") tb.values (Slice.elems pkgs) := by
  refine (available_success_structure l L f tb pkgs hstate hfn hcall hok).imp ?_
  rintro e pkg ⟨kvTable, he, hmain, _⟩ ⟨tb2, he2, hnote⟩
  rw [he] at he2
  cases he2
  rw [hmain, hnote]
  rfl

/-- Instance of `available_missing_note` at the entry `{version="1.2.3"}`. -/
theorem available_missing_note_witness :
    List.Forall₂ (fun (e : LValue) (pkg : Package) =>
      e.LacksField "note" → pkg.Main.Note = "nil") entryWithoutNote.values
      [Package.mk { Name := "node", Version := "1.2.3", Note := "nil", Path := "" } none] :=
  available_missing_note (examplePlugin (.ok (.LTableV entryWithoutNote)))
    { CallByParam := fun _ _ => .ok (.LTableV entryWithoutNote),
      alloc := fun k => "0xc" ++ toString k }
    "0xf1" entryWithoutNote
    (some [Package.mk { Name := "node", Version := "1.2.3", Note := "nil", Path := "" } none])
    rfl rfl rfl (by decide)

/-- C16, counterexample: when the guest names an additional artifact with the empty
string, `Available` and `PreInstall` both return, without error, a package whose
`Additional` holds an Info with an empty `Name`. -/
theorem additional_empty_name_accepted :
    (examplePlugin (.ok (.LTableV entryWithEmptyName))).Available =
      .returns (some [Package.mk
        { Name := "node", Version := "1.2.3", Note := "", Path := "" }
        (some [{ Name := "", Version := "9.0.0", Note := "", Path := "" }])]) none ∧
    (examplePlugin (.ok (.LTableV recordWithEmptyName))).PreInstall "18.0.0" =
      .returns (some (Package.mk
        { Name := "node", Version := "18.0.0", Note := "", Path := "https://x/node.tgz" }
        (some [{ Name := "", Version := "9.0.0", Note := "", Path := "https://x/npm.tgz" }])))
        none :=
  ⟨by decide, by decide⟩

/-- C16, amended: in every package `Available` or `PreInstall` returns without error,
each element of `Additional` has as `Name` the string form of the `name` field of a
table entry of the guest's `additional` mapping for that package. -/
theorem additional_names_from_guest :
    (∀ (l : LuaPlugin) (L : LState) (f : String) (tb : LTable) (pkgs : Slice Package),
      l.state = some L → l.pluginObj.RawGetString "Available" = .LFunction f →
      L.CallByParam (.LFunction f) [.LTableV l.pluginObj, .LTableV (availableContext L)]
        = .ok (.LTableV tb) →
      l.Available = .returns pkgs none →
      List.Forall₂ (fun (e : LValue) (pkg : Package) =>
        ∃ kvTable, e = .LTableV kvTable ∧ AdditionalNamedIn kvTable pkg)
        tb.values (Slice.elems pkgs)) ∧
    (∀ (l : LuaPlugin) (L : LState) (f version : String) (tb : LTable) (pkg : Package),
      l.state = some L → l.pluginObj.RawGetString "PostInstall" = .LFunction f →
      L.CallByParam (.LFunction f)
        [.LTableV l.pluginObj, .LTableV (preInstallContext L version)] = .ok (.LTableV tb) →
      l.PreInstall version = .returns (some pkg) none →
      AdditionalNamedIn tb pkg) := by
  constructor
  · intro l L f tb pkgs hstate hfn hcall hok
    refine (available_success_structure l L f tb pkgs hstate hfn hcall hok).imp ?_
    rintro e pkg ⟨kvTable, he, _, hadd⟩
    exact ⟨kvTable, he, hadd⟩
  · intro l L f version tb pkg hstate hfn hcall hok
    exact preInstall_success_structure l L f version tb pkg hstate hfn hcall hok

/-- Instance of `additional_names_from_guest` at a reply of `PreInstall` with one
additional artifact. -/
theorem additional_names_from_guest_witness :
    AdditionalNamedIn nodeWithNpm (Package.mk
      { Name := "node", Version := "18.0.0", Note := "", Path := "https://x/node.tgz" }
      (some [{ Name := "npm", Version := "9.0.0", Note := "", Path := "https://x/npm.tgz" }])) :=
  additional_names_from_guest.2 (examplePlugin (.ok (.LTableV nodeWithNpm)))
    { CallByParam := fun _ _ => .ok (.LTableV nodeWithNpm), alloc := fun k => "0xc" ++ toString k }
    "0xf2" "18.0.0" nodeWithNpm _ rfl rfl rfl (by decide)

/-! ## PostInstall: the context record -/

theorem sdkTable_isInfoRecord (L : LState) (k : Nat) (v : Info) :
    IsInfoRecord (.LTableV (sdkTable L k v)) v := by
  refine ⟨sdkTable L k v, rfl, ?_, ?_, ?_⟩
  · unfold sdkTable
    rw [LTable.get_set_string_ne _ "path" "name" _ (by decide),
      LTable.get_set_string_ne _ "version" "name" _ (by decide),
      LTable.get_set_string_self]
  · unfold sdkTable
    rw [LTable.get_set_string_ne _ "path" "version" _ (by decide),
      LTable.get_set_string_self]
  · unfold sdkTable
    rw [LTable.get_set_string_self]

theorem lastNamed_name (n : String) :
    ∀ (sdks : List Info) (w : Info), lastNamed n sdks = some w → w.Name = n := by
  intro sdks
  induction sdks with
  | nil => intro w h; cases h
  | cons v rest ih =>
    intro w h
    simp only [lastNamed] at h
    rcases hr : lastNamed n rest with _ | u
    · rw [hr] at h
      by_cases hv : v.Name = n
      · simp only [hv, if_true] at h
        cases h
        exact hv
      · simp [hv] at h
    · rw [hr] at h
      cases h
      exact ih _ hr

theorem lastNamed_of_mem (sdks : List Info) :
    ∀ v ∈ sdks, ∃ w, lastNamed v.Name sdks = some w := by
  induction sdks with
  | nil => intro v hv; cases hv
  | cons x rest ih =>
    intro v hv
    simp only [lastNamed]
    rcases hr : lastNamed v.Name rest with _ | u
    · rcases List.mem_cons.mp hv with rfl | hmem
      · exact ⟨v, by simp⟩
      · obtain ⟨w, hw⟩ := ih v hmem
        rw [hr] at hw
        cases hw
    · exact ⟨u, rfl⟩

theorem lastNamed_of_nodup (sdks : List Info) (hnd : (sdks.map Info.Name).Nodup) :
    ∀ v ∈ sdks, lastNamed v.Name sdks = some v := by
  induction sdks with
  | nil => intro v hv; cases hv
  | cons x rest ih =>
    intro v hv
    rw [List.map_cons, List.nodup_cons] at hnd
    simp only [lastNamed]
    rcases List.mem_cons.mp hv with rfl | hmem
    · rcases hr : lastNamed v.Name rest with _ | u
      · simp
      · exfalso
        have hu := lastNamed_name v.Name rest u hr
        have hmem : u ∈ rest := by
          clear hnd ih hv
          induction rest with
          | nil => cases hr
          | cons y ys ihy =>
            simp only [lastNamed] at hr
            rcases hy : lastNamed v.Name ys with _ | z
            · rw [hy] at hr
              by_cases hyn : y.Name = v.Name
              · simp only [hyn, if_true] at hr
                cases hr
                exact List.mem_cons_self _ _
              · simp [hyn] at hr
            · rw [hy] at hr
              cases hr
              exact List.mem_cons_of_mem _ (ihy hy)
        exact hnd.1 (hu ▸ List.mem_map_of_mem Info.Name hmem)
    · rw [ih hnd.2 v hmem]

theorem sdkArrLoop_lookup (L : LState) (n : String) :
    ∀ (sdks : List Info) (st : LTable × Nat),
      (∃ w k, lastNamed n sdks = some w ∧
        (sdkArrLoop L sdks st).1.RawGetString n = .LTableV (sdkTable L k w)) ∨
      (lastNamed n sdks = none ∧ (sdkArrLoop L sdks st).1.RawGetString n = st.1.RawGetString n) := by
  intro sdks
  induction sdks with
  | nil => intro st; exact Or.inr ⟨rfl, rfl⟩
  | cons v rest ih =>
    intro st
    have hstep : sdkArrLoop L (v :: rest) st = sdkArrLoop L rest
        (st.1.RawSetString v.Name (.LTableV (sdkTable L st.2 v)), st.2 + 1) := rfl
    rw [hstep]
    rcases ih (st.1.RawSetString v.Name (.LTableV (sdkTable L st.2 v)), st.2 + 1) with
      ⟨w, k, hw, hget⟩ | ⟨hnone, hget⟩
    · exact Or.inl ⟨w, k, by simp [lastNamed, hw], hget⟩
    · by_cases hv : v.Name = n
      · refine Or.inl ⟨v, st.2, by simp [lastNamed, hnone, hv], ?_⟩
        rw [hget, ← hv]
        exact LTable.get_set_table_self _ _ _
      · refine Or.inr ⟨by simp [lastNamed, hnone, hv], ?_⟩
        rw [hget]
        exact LTable.get_set_table_ne _ _ _ _ hv

theorem postInstall_eq_call (l : LuaPlugin) (L : LState) (f rootPath : String)
    (sdks : Slice Info) (hstate : l.state = some L)
    (hfn : l.pluginObj.RawGetString "PostInstall" = .LFunction f) :
    l.PostInstall rootPath sdks =
      match L.CallByParam (.LFunction f)
        [.LTableV l.pluginObj, .LTableV (postInstallContext L rootPath sdks)] with
      | .error e => .returns () (some e)
      | .ok _ => .returns () none := by
  simp only [LuaPlugin.PostInstall, hstate, hfn]

/-- C17, counterexample: with two installed Infos named `node`, the entry of `sdkInfo`
keyed `node` is not the record of the first of them: it holds the second one. -/
theorem postInstall_context_shared_name :
    ∃ sdkArr, (postInstallContext exampleState "/sdk" twoNodes).RawGetString "sdkInfo"
        = .LTableV sdkArr ∧
      ({ Name := "node", Version := "18.0.0", Note := "", Path := "/a" } : Info)
        ∈ Slice.elems twoNodes ∧
      IsInfoRecord (sdkArr.RawGetString "node")
        { Name := "node", Version := "20.0.0", Note := "", Path := "/b" } ∧
      ¬ IsInfoRecord (sdkArr.RawGetString "node")
        { Name := "node", Version := "18.0.0", Note := "", Path := "/a" } := by
  refine ⟨_, rfl, List.mem_cons_self _ _, ⟨_, rfl, rfl, rfl, rfl⟩, ?_⟩
  rintro ⟨t, ht, _, hv, _⟩
  have h2 : LValue.LTableV (sdkTable exampleState 2
      { Name := "node", Version := "20.0.0", Note := "", Path := "/b" }) = .LTableV t := ht
  injection h2 with h3
  rw [← h3] at hv
  have h4 : LValue.LString "20.0.0" = .LString "18.0.0" := hv
  injection h4 with h5
  exact absurd h5 (by decide)

/-- C17, amended: the context record `PostInstall` passes to the guest has `rootPath`
equal to rootPath and an `sdkInfo` mapping that contains, for every Info in sdks, an
entry keyed by that Info's Name whose value is the record `{name, version, path}` of
the last Info in sdks bearing that Name: of the Info itself when the Names in sdks are
pairwise distinct. -/
theorem postInstall_context_record (l : LuaPlugin) (L : LState) (f rootPath : String)
    (sdks : Slice Info) (hstate : l.state = some L)
    (hfn : l.pluginObj.RawGetString "PostInstall" = .LFunction f) :
    (l.PostInstall rootPath sdks =
      match L.CallByParam (.LFunction f)
        [.LTableV l.pluginObj, .LTableV (postInstallContext L rootPath sdks)] with
      | .error e => .returns () (some e)
      | .ok _ => .returns () none) ∧
    (postInstallContext L rootPath sdks).RawGetString "rootPath" = .LString rootPath ∧
    ∃ sdkArr, (postInstallContext L rootPath sdks).RawGetString "sdkInfo" = .LTableV sdkArr ∧
      (∀ v ∈ Slice.elems sdks, ∃ w, lastNamed v.Name (Slice.elems sdks) = some w ∧
        w.Name = v.Name ∧ IsInfoRecord (sdkArr.RawGetString v.Name) w) ∧
      (((Slice.elems sdks).map Info.Name).Nodup →
        ∀ v ∈ Slice.elems sdks, IsInfoRecord (sdkArr.RawGetString v.Name) v) := by
  have hrecord : ∀ v ∈ Slice.elems sdks, ∃ w, lastNamed v.Name (Slice.elems sdks) = some w ∧
      w.Name = v.Name ∧ IsInfoRecord
        ((sdkArrLoop L (Slice.elems sdks) (L.NewTable 0, 1)).1.RawGetString v.Name) w := by
    intro v hv
    obtain ⟨w, hw⟩ := lastNamed_of_mem (Slice.elems sdks) v hv
    refine ⟨w, hw, lastNamed_name _ _ w hw, ?_⟩
    rcases sdkArrLoop_lookup L v.Name (Slice.elems sdks) (L.NewTable 0, 1) with
      ⟨w2, k, hw2, hget⟩ | ⟨hnone, _⟩
    · rw [hw] at hw2
      cases hw2
      rw [hget]
      exact sdkTable_isInfoRecord L k w
    · rw [hw] at hnone
      cases hnone
  refine ⟨postInstall_eq_call l L f rootPath sdks hstate hfn, ?_, _, ?_, hrecord, ?_⟩
  · unfold postInstallContext
    exact LTable.get_set_string_self _ _ _
  · unfold postInstallContext
    simp only
    rw [LTable.get_set_string_ne _ "rootPath" "sdkInfo" _ (by decide),
      LTable.get_set_table_self]
  · intro hnd v hv
    obtain ⟨w, hw, _, hrec⟩ := hrecord v hv
    rw [lastNamed_of_nodup (Slice.elems sdks) hnd v hv] at hw
    cases hw
    exact hrec

/-- Instance of `postInstall_context_record` at the installed artifacts `node` and
`npm`. -/
theorem postInstall_context_record_witness :
    (postInstallContext exampleState "/sdk" nodeAndNpm).RawGetString "rootPath"
      = .LString "/sdk" :=
  (postInstall_context_record (examplePlugin (.ok .LNil)) exampleState "0xf2" "/sdk"
    nodeAndNpm rfl rfl).2.1

/-! ## Round trip, capability binding, emptiness -/

/-- C18, counterexample: the context records the bridge builds for the package
`node` 18.0.0 at `x` with `npm` 9.0.0 at `y` (the one of `PostInstall`, the one of
`EnvKeys`), echoed back by the guest and decoded by `PreInstall` on a plugin named
`node`, give a package with version `nil`, path `nil` and no additional artifact, which
is not the original. -/
theorem context_echo_does_not_round_trip :
    (examplePlugin (.ok (.LTableV (postInstallContext exampleState "/sdk" nodeAndNpm)))).PreInstall
        "18.0.0" = .returns (some (Package.mk
          { Name := "node", Version := "nil", Note := "", Path := "nil" } none)) none ∧
    (examplePlugin (.ok (.LTableV (envKeysContext exampleState nodePackage)))).PreInstall
        "18.0.0" = .returns (some (Package.mk
          { Name := "node", Version := "nil", Note := "", Path := "nil" } none)) none ∧
    Package.mk { Name := "node", Version := "nil", Note := "", Path := "nil" } none
      ≠ nodePackage :=
  ⟨by decide, by decide, by decide⟩

/-- C18, amended: on a plugin named `node`, decoding with `PreInstall` the
guest-authored record `{version="18.0.0", url="x", additional={{name="npm",
version="9.0.0", url="y"}}}` yields the package `node` 18.0.0 at `x` with the one
additional artifact `npm` 9.0.0 at `y`. -/
theorem preInstall_decodes_node_package :
    (examplePlugin (.ok (.LTableV nodePackageReply))).PreInstall "18.0.0"
      = .returns (some nodePackage) none := by
  decide

/-- C19: on a plugin with a runtime, `PreInstall` and `PostInstall` both hand to the
protected call the value of the field `PostInstall` of the plugin object; both panic
when that value is not a function; and what `PreInstall` returns does not depend on
what the runtime does for any other function, such as one bound to a field named
`PreInstall`. -/
theorem preInstall_calls_postInstall_binding (l : LuaPlugin) (L : LState)
    (version rootPath : String) (sdks : Slice Info) (hstate : l.state = some L) :
    (∀ f, l.pluginObj.RawGetString "PostInstall" = .LFunction f →
      (l.PreInstall version =
        match L.CallByParam (l.pluginObj.RawGetString "PostInstall")
          [.LTableV l.pluginObj, .LTableV (preInstallContext L version)] with
        | .error e => .returns none (some e)
        | .ok ret => preInstallDecode l.Name ret) ∧
      (l.PostInstall rootPath sdks =
        match L.CallByParam (l.pluginObj.RawGetString "PostInstall")
          [.LTableV l.pluginObj, .LTableV (postInstallContext L rootPath sdks)] with
        | .error e => .returns () (some e)
        | .ok _ => .returns () none)) ∧
    ((l.pluginObj.RawGetString "PostInstall").isFunction = false →
      l.PreInstall version = .panics ∧ l.PostInstall rootPath sdks = .panics) ∧
    (∀ L2 : LState, L2.alloc = L.alloc →
      (∀ args, L2.CallByParam (l.pluginObj.RawGetString "PostInstall") args
        = L.CallByParam (l.pluginObj.RawGetString "PostInstall") args) →
      (LuaPlugin.mk (some L2) l.pluginObj l.Name l.Author l.Version l.UpdateUrl).PreInstall
        version = l.PreInstall version) := by
  refine ⟨?_, ?_, ?_⟩
  · intro f hf
    constructor
    · simp only [LuaPlugin.PreInstall, hstate, hf]
    · simp only [LuaPlugin.PostInstall, hstate, hf]
  · intro hfn
    constructor
    · simp only [LuaPlugin.PreInstall, hstate]
      cases hv : l.pluginObj.RawGetString "PostInstall" <;>
        simp_all [LValue.isFunction]
    · simp only [LuaPlugin.PostInstall, hstate]
      cases hv : l.pluginObj.RawGetString "PostInstall" <;>
        simp_all [LValue.isFunction]
  · intro L2 halloc hcall
    have hctx : preInstallContext L2 version = preInstallContext L version := by
      simp only [preInstallContext, LState.NewTable, halloc]
    simp only [LuaPlugin.PreInstall, hstate, hctx]
    cases hv : l.pluginObj.RawGetString "PostInstall" <;> simp only []
    rw [hv] at hcall
    rw [hcall]

/-- Instance of `preInstall_calls_postInstall_binding` at the example plugin, whose
guest returns a record for `node` and `npm`. -/
theorem preInstall_calls_postInstall_binding_witness :
    (examplePlugin (.ok (.LTableV nodeWithNpm))).PreInstall "18.0.0" =
      match (Except.ok (.LTableV nodeWithNpm) : Except String LValue) with
      | .error e => .returns none (some e)
      | .ok ret => preInstallDecode "node" ret :=
  ((preInstall_calls_postInstall_binding (examplePlugin (.ok (.LTableV nodeWithNpm)))
    { CallByParam := fun _ _ => .ok (.LTableV nodeWithNpm), alloc := fun k => "0xc" ++ toString k }
    "18.0.0" "/sdk" nodeAndNpm rfl).1 "0xf2" rfl).1

/-- C20: when every entry of the table the guest `EnvKeys` returns sits under a
non-sequence key, so that the array part of the table holds no value, `EnvKeys`
returns the error `no environment variables provided` and a nil list, however many
well-formed records the table holds. -/
theorem envKeys_hash_only_reply (l : LuaPlugin) (L : LState) (sdkPackage : Package)
    (tb : LTable) (hstate : l.state = some L)
    (hcall : L.CallByParam (l.pluginObj.RawGetString "EnvKeys")
      [.LTableV l.pluginObj, .LTableV (envKeysContext L sdkPackage)] = .ok (.LTableV tb))
    (harr : ∀ v ∈ tb.array, v.isNil = true) :
    l.EnvKeys sdkPackage = .returns none (some "no environment variables provided") := by
  have hlen : tb.Len = 0 := by
    by_contra h
    obtain ⟨v, hv, hvn⟩ := lenLoop_ne_zero tb.array.reverse .LNil h
    have hv2 : v ∈ tb.array := by simpa using hv
    rw [harr v hv2] at hvn
    cases hvn
  rw [envKeys_eq_decode l L sdkPackage _ hstate hcall]
  simp [envKeysDecode, ToTable, LTable.TypeOfPtr, hlen, noEnvironmentVariables]

/-- Instance of `envKeys_hash_only_reply` at the reply
`{JAVA_HOME = {key="JAVA_HOME", value="/opt/x"}}`. -/
theorem envKeys_hash_only_reply_witness :
    (record "0xec" [("key", "JAVA_HOME"), ("value", "/opt/x")]) ∈ javaHomeReply.values ∧
    (examplePlugin (.ok (.LTableV javaHomeReply))).EnvKeys examplePackage
      = .returns none (some "no environment variables provided") :=
  ⟨List.mem_singleton.mpr rfl,
    envKeys_hash_only_reply (examplePlugin (.ok (.LTableV javaHomeReply)))
      { CallByParam := fun _ _ => .ok (.LTableV javaHomeReply),
        alloc := fun k => "0xc" ++ toString k }
      examplePackage javaHomeReply rfl rfl (by intro v hv; cases hv)⟩

end Sdk
